import Mathlib

/-!
Verification development for the constitution-engine decision core.

This file gives a shallow embedding, in Lean 4, of the core algorithms of the
repository and proves the behavioural properties stated for them:

* `computeDecisionHash` and its stable serialization (`src/lib/hash.ts`):
  JSON values are modelled by the inductive `Json`, JavaScript numbers by `ℚ`
  (the claims under study concern only order comparisons, which agree with the
  rational order on all inputs considered), and the SHA-256 digest is
  implemented bit-faithfully on byte lists from FIPS 180-4, which is what the
  node `crypto` module computes.
* the autonomy-band evaluator (`src/core/policy/evaluator.ts`),
* the reward engine (`src/core/learning/reward.ts`),
* the decision-chain append path of `makeDecision`
  (`src/core/decisions/decisions.ts`) together with the matched-band
  extraction done by the outcomes route,
* the policy loader with its TTL cache (`src/core/policy/loader.ts`).

JavaScript's `Array.prototype.sort` is required to be stable; it is modelled
by the stable `List.insertionSort`.  Thrown `BadRequestError`s are modelled
with `Except`.  JavaScript object field access is modelled by association-list
lookup; JavaScript objects cannot carry duplicate keys, so maps are assumed
key-nodup where that matters and the assumption is stated explicitly.
-/

/-- JSON values, as produced by `JSON.parse` / consumed by `JSON.stringify`.
Numbers are modelled as rationals; object entries are kept in insertion
order, exactly as JavaScript preserves property insertion order. -/
inductive Json where
  | null : Json
  | bool (b : Bool) : Json
  | num (q : ℚ) : Json
  | str (s : String) : Json
  | arr (elems : List Json) : Json
  | obj (entries : List (String × Json)) : Json

/-- Entry sort used by `sortKeys`: ascending by key, as
`Object.keys(obj).sort()` orders the keys before the object is rebuilt.
`insertionSort` is stable, like the JavaScript sort (stability is moot here
because JavaScript object keys are unique). -/
def sortEntries (kvs : List (String × Json)) : List (String × Json) :=
  List.insertionSort (fun p q => p.1 ≤ q.1) kvs

mutual

/-- `sortKeys` from `src/lib/hash.ts`: recursively sorts object keys;
arrays keep their order, scalars are returned unchanged. -/
def sortKeys : Json → Json
  | .null => .null
  | .bool b => .bool b
  | .num q => .num q
  | .str s => .str s
  | .arr xs => .arr (sortKeysList xs)
  | .obj kvs => .obj (sortEntries (sortKeysEntries kvs))

/-- `sortKeys` mapped over the elements of an array. -/
def sortKeysList : List Json → List Json
  | [] => []
  | x :: xs => sortKeys x :: sortKeysList xs

/-- `sortKeys` mapped over the values of an object's entries. -/
def sortKeysEntries : List (String × Json) → List (String × Json)
  | [] => []
  | (k, v) :: rest => (k, sortKeys v) :: sortKeysEntries rest

end

mutual

/-- `JSON.stringify` on the modelled values.  Numeric literals are rendered
through `toString` on `ℚ` and string escaping is not expanded: the claims
proved below use the serialization only as a function of the (key-sorted)
value, never the concrete digit or escape syntax. -/
def serialize : Json → String
  | .null => "null"
  | .bool true => "true"
  | .bool false => "false"
  | .num q => toString q
  | .str s => "\"" ++ s ++ "\""
  | .arr xs => "[" ++ serializeList xs ++ "]"
  | .obj kvs => "\x7b" ++ serializeEntries kvs ++ "\x7d"

/-- Comma-joined serialization of array elements. -/
def serializeList : List Json → String
  | [] => ""
  | [x] => serialize x
  | x :: y :: rest => serialize x ++ "," ++ serializeList (y :: rest)

/-- Comma-joined serialization of object entries. -/
def serializeEntries : List (String × Json) → String
  | [] => ""
  | [(k, v)] => "\"" ++ k ++ "\":" ++ serialize v
  | (k, v) :: p :: rest =>
      "\"" ++ k ++ "\":" ++ serialize v ++ "," ++ serializeEntries (p :: rest)

end

/-! ### SHA-256 (FIPS 180-4) over byte lists

Machine words are `ℕ` values kept below `2 ^ 32` by explicit reduction
`% 4294967296`. -/

/-- Truncation to a 32-bit word. -/
def w32 (n : ℕ) : ℕ := n % 4294967296

/-- 32-bit rotate right. -/
def rotr (n x : ℕ) : ℕ := w32 ((x >>> n) ||| (x <<< (32 - n)))

/-- SHA-256 `Ch` function. -/
def shaCh (x y z : ℕ) : ℕ := (x &&& y) ^^^ ((x ^^^ 4294967295) &&& z)

/-- SHA-256 `Maj` function. -/
def shaMaj (x y z : ℕ) : ℕ := (x &&& y) ^^^ (x &&& z) ^^^ (y &&& z)

/-- SHA-256 `Σ₀`. -/
def shaBigSigma0 (x : ℕ) : ℕ := rotr 2 x ^^^ rotr 13 x ^^^ rotr 22 x

/-- SHA-256 `Σ₁`. -/
def shaBigSigma1 (x : ℕ) : ℕ := rotr 6 x ^^^ rotr 11 x ^^^ rotr 25 x

/-- SHA-256 `σ₀`. -/
def shaSmallSigma0 (x : ℕ) : ℕ := rotr 7 x ^^^ rotr 18 x ^^^ (x >>> 3)

/-- SHA-256 `σ₁`. -/
def shaSmallSigma1 (x : ℕ) : ℕ := rotr 17 x ^^^ rotr 19 x ^^^ (x >>> 10)

/-- The 64 SHA-256 round constants (FIPS 180-4 section 4.2.2, in
decimal). -/
def shaK : List ℕ :=
  [1116352408, 1899447441, 3049323471, 3921009573,
   961987163, 1508970993, 2453635748, 2870763221,
   3624381080, 310598401, 607225278, 1426881987,
   1925078388, 2162078206, 2614888103, 3248222580,
   3835390401, 4022224774, 264347078, 604807628,
   770255983, 1249150122, 1555081692, 1996064986,
   2554220882, 2821834349, 2952996808, 3210313671,
   3336571891, 3584528711, 113926993, 338241895,
   666307205, 773529912, 1294757372, 1396182291,
   1695183700, 1986661051, 2177026350, 2456956037,
   2730485921, 2820302411, 3259730800, 3345764771,
   3516065817, 3600352804, 4094571909, 275423344,
   430227734, 506948616, 659060556, 883997877,
   958139571, 1322822218, 1537002063, 1747873779,
   1955562222, 2024104815, 2227730452, 2361852424,
   2428436474, 2756734187, 3204031479, 3329325298]

/-- The initial SHA-256 hash state (FIPS 180-4 section 5.3.3, in
decimal). -/
def shaH0 : List ℕ :=
  [1779033703, 3144134277, 1013904242, 2773480762,
   1359893119, 2600822924, 528734635, 1541459225]

/-- Big-endian byte rendering of `v` on `n` bytes. -/
def toBytesBE (n v : ℕ) : List ℕ :=
  (List.range n).map (fun i => (v >>> ((n - 1 - i) * 8)) &&& 255)

/-- FIPS 180-4 padding of a byte message: append `0x80`, zero bytes until the
length is 56 mod 64, then the bit length on 8 big-endian bytes. -/
def padMessage (msg : List ℕ) : List ℕ :=
  msg ++ [128] ++ List.replicate ((119 - msg.length % 64) % 64) 0
      ++ toBytesBE 8 (msg.length * 8)

/-- Packs bytes into big-endian 32-bit words. -/
def bytesToWords : List ℕ → List ℕ
  | a :: b :: c :: d :: rest =>
      ((a <<< 24) ||| (b <<< 16) ||| (c <<< 8) ||| d) :: bytesToWords rest
  | _ => []

/-- Splits a word list into 16-word blocks. -/
def toBlocks : List ℕ → List (List ℕ)
  | [] => []
  | x :: xs => ((x :: xs).take 16) :: toBlocks ((x :: xs).drop 16)
  termination_by l => l.length
  decreasing_by simp [List.length_drop]; omega

/-- Extends a 16-word block to the full 64-entry message schedule
(48 extension steps). -/
def extendSchedule (w : List ℕ) : ℕ → List ℕ
  | 0 => w
  | n + 1 =>
    let len := w.length
    let next := w32 (shaSmallSigma1 (w.getD (len - 2) 0) + w.getD (len - 7) 0 +
      shaSmallSigma0 (w.getD (len - 15) 0) + w.getD (len - 16) 0)
    extendSchedule (w ++ [next]) n

/-- One SHA-256 compression round. -/
def shaRound (wsched : List ℕ) (st : List ℕ) (t : ℕ) : List ℕ :=
  match st with
  | [a, b, c, d, e, f, g, h] =>
    let t1 := w32 (h + shaBigSigma1 e + shaCh e f g + shaK.getD t 0 + wsched.getD t 0)
    let t2 := w32 (shaBigSigma0 a + shaMaj a b c)
    [w32 (t1 + t2), a, b, c, w32 (d + t1), e, f, g]
  | other => other

/-- Compression of a single 16-word block into the running hash state. -/
def compressBlock (h : List ℕ) (block : List ℕ) : List ℕ :=
  let wsched := extendSchedule block 48
  let final := (List.range 64).foldl (shaRound wsched) h
  List.zipWith (fun x y => w32 (x + y)) h final

/-- SHA-256 of a byte message, as a byte list. -/
def sha256Bytes (msg : List ℕ) : List ℕ :=
  let blocks := toBlocks (bytesToWords (padMessage msg))
  (blocks.foldl compressBlock shaH0).map (toBytesBE 4) |>.flatten

/-- A lowercase hexadecimal digit. -/
def hexDigit (n : ℕ) : Char :=
  if n < 10 then Char.ofNat (48 + n) else Char.ofNat (87 + n)

/-- Lowercase hexadecimal rendering of a byte list. -/
def bytesToHex (bs : List ℕ) : String :=
  String.join (bs.map (fun b => String.mk [hexDigit (b / 16), hexDigit (b % 16)]))

/-- `createHash("sha256").update(s).digest("hex")`: SHA-256 of the UTF-8
bytes of `s`, rendered as lowercase hex. -/
def sha256Hex (s : String) : String :=
  bytesToHex (sha256Bytes (s.toUTF8.toList.map (fun b => b.toNat)))

/-- Argument record of `computeDecisionHash` (`src/lib/hash.ts`). -/
structure ComputeDecisionHashOptions where
  inputs : Json
  output : Json
  prevHash : Option String
  policyVersion : String

/-- `computeDecisionHash` from `src/lib/hash.ts`: SHA-256 over the stably
serialized inputs and output, the previous hash (empty string when null —
`prevHash || ""`), and the policy version, joined with `"|"`. -/
def computeDecisionHash (params : ComputeDecisionHashOptions) : String :=
  let stableInputs := serialize (sortKeys params.inputs)
  let stableOutput := serialize (sortKeys params.output)
  let hashInput := stableInputs ++ "|" ++ stableOutput ++ "|" ++
    (match params.prevHash with | none => "" | some s => s) ++ "|" ++ params.policyVersion
  sha256Hex hashInput

/-! ### Autonomy-band evaluator (`src/core/policy/evaluator.ts`)

Evaluator input data is `Record<string, any>` holding the numeric request
fields that constraints compare against; it is modelled as an association
list from field name to `ℚ` (per the spec's design notes, non-numeric
constraint fields are undefined JavaScript comparison behaviour and outside
the model).  Thrown `BadRequestError`s are the `Except` error channel. -/

/-- `String.prototype.startsWith`: the search string is a prefix of the
receiver (character-list prefix test). -/
def strStartsWith (s searchString : String) : Bool :=
  searchString.data.isPrefixOf s.data

/-- The `BadRequestError` class: a 400 error carrying its message. -/
inductive EvalError where
  | badRequest (msg : String) : EvalError
deriving DecidableEq

/-- `Escalation` from `src/core/policy/types.ts`. -/
structure Escalation where
  ifOutside : String
  notify : Option (List String) := none
  timeoutHours : Option ℕ := none
deriving DecidableEq

/-- `AutonomyBand`: a level (ordinal, 0–3 in the TS type) with a constraints
record mapping `min_`/`max_`-prefixed keys to numeric thresholds.  The
record's insertion order is the list order. -/
structure AutonomyBand where
  level : ℕ
  constraints : List (String × ℚ)
deriving DecidableEq

/-- `Authority` from `src/core/policy/types.ts`. -/
structure Authority where
  action : String
  autonomyBands : List AutonomyBand
  escalation : Option Escalation := none
deriving DecidableEq

/-- `EvaluatorInput`. -/
structure EvaluatorInput where
  action : String
  data : List (String × ℚ)
deriving DecidableEq

/-- `EvaluatorResult`. -/
structure EvaluatorResult where
  approved : Bool
  autonomyLevel : ℕ
  reason : String
  matchedBand : Option AutonomyBand := none
  escalationTarget : Option String := none
deriving DecidableEq

/-- JavaScript property access `input[field]` on the data record:
`none` models `undefined`. -/
def lookupField (data : List (String × ℚ)) (field : String) : Option ℚ :=
  (data.find? (fun p => p.1 == field)).map (fun p => p.2)

/-- `checkConstraints` from the evaluator.  For each entry, a `max_X` key
requires `input[X] <= threshold` and a `min_X` key requires
`input[X] >= threshold`; a missing field throws `BadRequestError`; a
violated threshold returns `false` immediately; keys with neither prefix
are skipped.  The source tests the two prefixes with two consecutive `if`s;
as no key can start with both, this equals the `if`/`else if` chain used
here, and `key.replace("max_", "")` on a `max_`-prefixed key equals
dropping the 4-character prefix. -/
def checkConstraints (input : List (String × ℚ)) :
    List (String × ℚ) → Except EvalError Bool
  | [] => .ok true
  | (key, threshold) :: rest =>
    if strStartsWith key "max_" then
      let field := key.drop 4
      match lookupField input field with
      | none => .error (.badRequest
          ("Missing required field: " ++ field ++ " (needed for constraint " ++ key ++ ")"))
      | some v => if v > threshold then .ok false else checkConstraints input rest
    else if strStartsWith key "min_" then
      let field := key.drop 4
      match lookupField input field with
      | none => .error (.badRequest
          ("Missing required field: " ++ field ++ " (needed for constraint " ++ key ++ ")"))
      | some v => if v < threshold then .ok false else checkConstraints input rest
    else checkConstraints input rest

/-- `sortAutonomyBands`: `[...autonomyBands].sort((a, b) => a.level - b.level)`,
a stable ascending sort by level, modelled by the stable `insertionSort`. -/
def sortAutonomyBands (autonomyBands : List AutonomyBand) : List AutonomyBand :=
  List.insertionSort (fun a b => a.level ≤ b.level) autonomyBands

/-- `sortedBands.find((band) => checkConstraints(inputData, band.constraints))`:
the first band whose check returns `true`; an exception thrown by the
predicate propagates. -/
def findMatchedBand (data : List (String × ℚ)) :
    List AutonomyBand → Except EvalError (Option AutonomyBand)
  | [] => .ok none
  | band :: rest =>
    match checkConstraints data band.constraints with
    | .error e => .error e
    | .ok true => .ok (some band)
    | .ok false => findMatchedBand data rest

/-- `evaluate` from `src/core/policy/evaluator.ts`. -/
def evaluate (input : EvaluatorInput) (authority : Authority) :
    Except EvalError EvaluatorResult :=
  if input.action ≠ authority.action then
    .error (.badRequest ("Action mismatch: expected '" ++ authority.action ++
      "', got '" ++ input.action ++ "'"))
  else if authority.autonomyBands.isEmpty then
    .error (.badRequest ("Authority for action '" ++ authority.action ++
      "' has no autonomy bands defined"))
  else
    match findMatchedBand input.data (sortAutonomyBands authority.autonomyBands) with
    | .error e => .error e
    | .ok (some band) =>
      .ok { approved := true
            autonomyLevel := band.level
            reason := "Approved under AL" ++ toString band.level ++ " constraints"
            matchedBand := some band }
    | .ok none =>
      -- `escalation?.ifOutside || "supervisor"`: an absent escalation or a
      -- falsy (empty) target string defaults to "supervisor".
      let target := match authority.escalation with
        | some e => if e.ifOutside = "" then "supervisor" else e.ifOutside
        | none => "supervisor"
      .ok { approved := false
            autonomyLevel := 0
            reason := "No autonomy band matches constraints. Escalating to " ++ target
            escalationTarget := some target }

/-! ### Reward engine (`src/core/learning/reward.ts`)

Outcome metrics are `Record<string, any>`; their values are modelled by
`JsVal` (boolean, number, string or null — `undefined` is absence from the
list). -/

/-- A JavaScript value stored in an outcome metrics record. -/
inductive JsVal where
  | bool (b : Bool) : JsVal
  | num (q : ℚ) : JsVal
  | str (s : String) : JsVal
  | null : JsVal
deriving DecidableEq

/-- `metrics[key]`; `none` models `undefined`. -/
def jsLookup (metrics : List (String × JsVal)) (key : String) : Option JsVal :=
  (metrics.find? (fun p => p.1 == key)).map (fun p => p.2)

/-- The `??` operator: take the left operand unless it is `undefined` or
`null`. -/
def jsNullish (a b : Option JsVal) : Option JsVal :=
  match a with
  | none => b
  | some .null => b
  | some v => some v

/-- `DecisionForReward` from `src/core/learning/types.ts`. -/
structure DecisionForReward where
  autonomyLevel : ℕ
  inputs : Json
  output : Json
  policyVersion : String
  node : String

/-- The `outcome` component of `RewardInput`. -/
structure OutcomeForReward where
  metrics : List (String × JsVal)

/-- `RewardInput` from `src/core/learning/types.ts`. -/
structure RewardInput where
  decision : DecisionForReward
  outcome : OutcomeForReward
  matchedBandConstraints : Option (List (String × ℚ)) := none

/-- `RewardResult`: `score` is optional in the TS type. -/
structure RewardResult where
  success : Bool
  reason : String
  score : Option ℚ := none
deriving DecidableEq

/-- `validateConstraints` from `src/core/learning/reward.ts`: collects (never
fail-fast) one violation message per violated constraint entry; `min_X`
requires `metrics[X] >= threshold` and `max_X` requires
`metrics[X] <= threshold`; a missing or non-numeric field is a violation;
keys with neither prefix are skipped. -/
def validateConstraints (metrics : List (String × JsVal)) :
    List (String × ℚ) → List String
  | [] => []
  | (constraintKey, constraintValue) :: rest =>
    (if strStartsWith constraintKey "min_" then
      let field := constraintKey.drop 4
      match jsLookup metrics field with
      | none => ["Missing " ++ field ++ " for " ++ constraintKey ++ " validation"]
      | some (.num actualValue) =>
        if actualValue < constraintValue then
          [field ++ "=" ++ toString actualValue ++ " below " ++ constraintKey ++
            "=" ++ toString constraintValue]
        else []
      | some _ => ["Invalid " ++ field ++ " type (expected number)"]
    else if strStartsWith constraintKey "max_" then
      let field := constraintKey.drop 4
      match jsLookup metrics field with
      | none => ["Missing " ++ field ++ " for " ++ constraintKey ++ " validation"]
      | some (.num actualValue) =>
        if actualValue > constraintValue then
          [field ++ "=" ++ toString actualValue ++ " exceeds " ++ constraintKey ++
            "=" ++ toString constraintValue]
        else []
      | some _ => ["Invalid " ++ field ++ " type (expected number)"]
    else []) ++ validateConstraints metrics rest

/-- `computeScore`: binary 1.0 for success, ignoring its arguments. -/
def computeScore (_metrics : List (String × JsVal))
    (_constraints : Option (List (String × ℚ))) : ℚ := 1

/-- `metrics["success"] ?? metrics["won"] ?? false`: the success indicator
read by `computeReward`. -/
def successIndicator (metrics : List (String × JsVal)) : Option JsVal :=
  jsNullish (jsLookup metrics "success")
    (jsNullish (jsLookup metrics "won") (some (.bool false)))

/-- `computeReward` from `src/core/learning/reward.ts`.  Returns `none`
(`null`) for autonomy level 0; otherwise a non-boolean success indicator is
an invalid-metric failure, a `false` indicator an unsuccessful-outcome
failure; a `true` indicator validates the matched band constraints (when
present — `if (matchedBandConstraints)`) and succeeds with score 1.0 when
no violation is found. -/
def computeReward (input : RewardInput) : Option RewardResult :=
  if input.decision.autonomyLevel = 0 then
    none
  else
    let metrics := input.outcome.metrics
    match successIndicator metrics with
    | some (.bool b) =>
      if b then
        match input.matchedBandConstraints with
        | some constraints =>
          let violations := validateConstraints metrics constraints
          if violations.length > 0 then
            some { success := false
                   reason := "Constraint violations: " ++ String.intercalate ", " violations
                   score := some 0 }
          else
            some { success := true
                   reason := "Outcome successful and constraints satisfied"
                   score := some (computeScore metrics (some constraints)) }
        | none =>
          some { success := true
                 reason := "Outcome successful and constraints satisfied"
                 score := some (computeScore metrics none) }
      else
        some { success := false, reason := "Outcome marked as unsuccessful", score := some 0 }
    | _ =>
      some { success := false
             reason := "Missing or invalid 'success' outcome metric"
             score := some 0 }

/-! ### Decision chain (`src/core/decisions/decisions.ts`)

The append path of `makeDecision` after policy load and evaluation:
fetch the hash of the most recent decision (`findFirst` ordered by `ts`
descending), build the structured output object, compute the content hash,
and insert the new row.  The decisions table is the list of rows in
insertion order; `ts` is the row timestamp.  The database leaves the order
of equal-`ts` rows unspecified; the model resolves such ties towards the
most recently inserted row, and the chain theorem below only assumes
strictly increasing timestamps, where the tie never arises. -/

/-- A persisted decision row (`decisions` table columns written by
`makeDecision`; the DB-generated id and the unused vector/approver columns
are omitted). -/
structure DecisionRow where
  node : String
  policyVersion : String
  inputs : Json
  output : Json
  autonomyLevel : ℕ
  hash : String
  prevHash : Option String
  ts : ℕ
  correlationId : String
  latencyMs : ℕ

/-- `db.query.decisions.findFirst({orderBy: [desc(decisions.ts)]})`: the row
with the greatest timestamp (ties towards the later-inserted row). -/
def latestDecision : List DecisionRow → Option DecisionRow
  | [] => none
  | r :: rest =>
    match latestDecision rest with
    | none => some r
    | some b => if b.ts ≥ r.ts then some b else some r

/-- The structured output object persisted by `makeDecision`:
`{approved, autonomyLevel, reason, ...(escalationTarget && {escalationTarget})}`.
The spread with `&&` omits the key when `escalationTarget` is absent or the
empty (falsy) string.  Note that `matchedBand` is not included. -/
def buildDecisionOutput (evaluationResult : EvaluatorResult) : Json :=
  .obj ([("approved", .bool evaluationResult.approved),
         ("autonomyLevel", .num evaluationResult.autonomyLevel),
         ("reason", .str evaluationResult.reason)] ++
    (match evaluationResult.escalationTarget with
     | some t => if t = "" then [] else [("escalationTarget", .str t)]
     | none => []))

/-- One `makeDecision` append: reads the latest hash, computes the content
hash over (inputs, output, prevHash, policyVersion) and inserts the row. -/
def appendDecision (ledger : List DecisionRow) (node : String) (data : Json)
    (evaluationResult : EvaluatorResult) (policyVersion correlationId : String)
    (ts latencyMs : ℕ) : List DecisionRow :=
  let prevHash := (latestDecision ledger).map (fun d => d.hash)
  let output := buildDecisionOutput evaluationResult
  let hash := computeDecisionHash
    { inputs := data, output := output, prevHash := prevHash, policyVersion := policyVersion }
  ledger ++ [{ node := node, policyVersion := policyVersion, inputs := data,
               output := output, autonomyLevel := evaluationResult.autonomyLevel,
               hash := hash, prevHash := prevHash, ts := ts,
               correlationId := correlationId, latencyMs := latencyMs }]

/-- The data of one decision request reaching the append path. -/
structure AppendRequest where
  node : String
  data : Json
  evaluationResult : EvaluatorResult
  policyVersion : String
  correlationId : String
  ts : ℕ
  latencyMs : ℕ

/-- A sequence of `makeDecision` calls executed one after another by a
single writer, starting from an empty decisions table. -/
def buildLedger (requests : List AppendRequest) : List DecisionRow :=
  requests.foldl
    (fun ledger r => appendDecision ledger r.node r.data r.evaluationResult
      r.policyVersion r.correlationId r.ts r.latencyMs) []

/-- JavaScript property access `j?.k` on a decoded JSON value: defined only
on objects, `undefined` (`none`) otherwise. -/
def jsonGet (j : Json) (key : String) : Option Json :=
  match j with
  | .obj kvs => (kvs.find? (fun p => p.1 == key)).map (fun p => p.2)
  | _ => none

/-- `(decision.output as any)?.matchedBand?.constraints` — the extraction the
outcomes route (`POST /outcomes/:decisionId`) performs on the persisted
decision output to obtain the constraints handed to `computeReward`. -/
def extractMatchedBandConstraints (output : Json) : Option Json :=
  (jsonGet output "matchedBand").bind (fun mb => jsonGet mb "constraints")

/-! ### Policy loader (`src/core/policy/loader.ts`)

The loader's private cache is a map from the fully qualified reference
string to a `(policy, timestamp)` entry; the backing store is the
`policy_versions` table, modelled as a row list.  `load` is modelled as a
pure function of (store, cache, current time, reference) returning the
policy, the updated cache, and the number of backing reads performed by
this call. -/

/-- A `policy_versions` row. -/
structure PolicyVersionRow where
  id : ℕ
  name : String
  version : String
  doc : Json
  createdAt : ℕ

/-- Errors surfaced by `PolicyLoader.load` (`NotFoundError`,
`BadRequestError`). -/
inductive LoadError where
  | notFound (msg : String) : LoadError
  | badRequest (msg : String) : LoadError
deriving DecidableEq

namespace PolicyLoader

/-- `CACHE_TTL_MS = 60000`. -/
def CACHE_TTL_MS : ℕ := 60000

/-- One cache entry. -/
structure CacheEntry where
  policy : PolicyVersionRow
  timestamp : ℕ

/-- The private `Map<string, CacheEntry>`. -/
abbrev Cache := List (String × CacheEntry)

/-- `Map.get`. -/
def cacheLookup (cache : Cache) (key : String) : Option CacheEntry :=
  ((cache : List (String × CacheEntry)).find? (fun p => p.1 == key)).map (fun p => p.2)

/-- `Map.delete` (a no-op when the key is absent). -/
def cacheErase (cache : Cache) (key : String) : Cache :=
  (cache : List (String × CacheEntry)).filter (fun p => !(p.1 == key))

/-- `Map.set`: replaces any existing binding for the key.  (The JavaScript
`Map` keeps the original insertion slot for an overwritten key; iteration
order is never observed, so the binding is re-appended here.) -/
def cacheSet (cache : Cache) (key : String) (entry : CacheEntry) : Cache :=
  cacheErase cache key ++ [(key, entry)]

/-- `String.prototype.split` on a one-character separator, over character
lists: every separator occurrence starts a new (possibly empty) group. -/
def splitChars (sep : Char) : List Char → List (List Char)
  | [] => [[]]
  | c :: rest =>
    match splitChars sep rest with
    | [] => []
    | group :: groups =>
      if c == sep then [] :: group :: groups else (c :: group) :: groups

/-- `policyName.split("@")`. -/
def jsSplit (s : String) (sep : Char) : List String :=
  (splitChars sep s.data).map (fun cs => String.mk cs)

/-- `parsePolicyName`: split on `"@"`; an empty name is a `BadRequest`; a
missing or empty (falsy) version component means "latest". -/
def parsePolicyName (policyName : String) : Except LoadError (String × Option String) :=
  let parts := jsSplit policyName '@'
  let name := parts.headD ""
  let version := (parts.drop 1).head?
  if name = "" then
    .error (.badRequest ("Couldn't parse policy name and version from: " ++ policyName ++
      ". Expected format: <name>@<version>."))
  else
    .ok (name, match version with | none => none | some "" => none | some v => some v)

/-- `loadSpecificFromDb`: `findFirst` on name and version. -/
def loadSpecificFromDb (store : List PolicyVersionRow) (name version : String) :
    Option PolicyVersionRow :=
  store.find? (fun p => p.name == name && p.version == version)

/-- The row with the greatest `createdAt` (ties towards the later-inserted
row, as for decisions; the spec gives later versions strictly higher
creation timestamps). -/
def latestPolicy : List PolicyVersionRow → Option PolicyVersionRow
  | [] => none
  | r :: rest =>
    match latestPolicy rest with
    | none => some r
    | some b => if b.createdAt ≥ r.createdAt then some b else some r

/-- `loadLatestFromDb`: `findFirst` on name ordered by `createdAt`
descending. -/
def loadLatestFromDb (store : List PolicyVersionRow) (name : String) :
    Option PolicyVersionRow :=
  latestPolicy (store.filter (fun p => p.name == name))

/-- The fully qualified cache key: a missing version resolves to the literal
`@latest` slot. -/
def cacheKey (name : String) (version : Option String) : String :=
  name ++ "@" ++ (version.getD "latest")

/-- `getCached`: a stale entry (strictly older than the TTL) is deleted at
read time and reported as a miss; `Date.now() - entry.timestamp` is a
truncated subtraction, matching the JavaScript comparison for every
monotone clock. -/
def getCached (cache : Cache) (now : ℕ) (name : String) (version : Option String) :
    Option PolicyVersionRow × Cache :=
  let keyString := cacheKey name version
  match cacheLookup cache keyString with
  | none => (none, cacheErase cache keyString)
  | some entry =>
    if now - entry.timestamp > CACHE_TTL_MS then (none, cacheErase cache keyString)
    else (some entry.policy, cache)

/-- `setCache`. -/
def setCache (cache : Cache) (name : String) (version : Option String)
    (policy : PolicyVersionRow) (now : ℕ) : Cache :=
  cacheSet cache (cacheKey name version) { policy := policy, timestamp := now }

/-- `PolicyLoader.load`: parse the reference, consult the cache, and on a
miss perform exactly one backing read (by exact version, or latest by
creation time) and populate the cache.  The last component counts the
backing reads performed by this call. -/
def load (store : List PolicyVersionRow) (cache : Cache) (now : ℕ)
    (policyName : String) : Except LoadError (PolicyVersionRow × Cache × ℕ) :=
  match parsePolicyName policyName with
  | .error e => .error e
  | .ok (name, version) =>
    match getCached cache now name version with
    | (some policy, cache1) => .ok (policy, cache1, 0)
    | (none, cache1) =>
      match version with
      | some v =>
        match loadSpecificFromDb store name v with
        | none => .error (.notFound ("Policy version " ++ name ++ "@" ++ v ++ " not found"))
        | some policy => .ok (policy, setCache cache1 name version policy now, 1)
      | none =>
        match loadLatestFromDb store name with
        | none => .error (.notFound ("Policy " ++ name ++ "@latest not found"))
        | some policy => .ok (policy, setCache cache1 name none policy now, 1)

end PolicyLoader

/-! ### Helper predicates and lemmas for the evaluator claims -/

/-- A constraint entry key the evaluator acts on: prefixed `max_` or `min_`. -/
def isConstraintKey (k : String) : Bool :=
  strStartsWith k "max_" || strStartsWith k "min_"

/-- Every field referenced by a `max_`/`min_` constraint entry of `cs` is
present in the input data. -/
def FieldsPresent (data cs : List (String × ℚ)) : Prop :=
  ∀ p ∈ cs, isConstraintKey p.1 = true → lookupField data (p.1.drop 4) ≠ none

instance (data cs : List (String × ℚ)) : Decidable (FieldsPresent data cs) :=
  inferInstanceAs (Decidable (∀ p ∈ cs, isConstraintKey p.1 = true →
    lookupField data (p.1.drop 4) ≠ none))

/-- The pure satisfaction predicate for one band's constraints: every
`max_X` entry has `data[X]` present and `≤` the threshold, every `min_X`
entry has `data[X]` present and `≥` the threshold; other entries are
ignored. -/
def bandPasses (data cs : List (String × ℚ)) : Bool :=
  cs.all (fun p =>
    if strStartsWith p.1 "max_" then
      match lookupField data (p.1.drop 4) with
      | some v => decide (v ≤ p.2)
      | none => false
    else if strStartsWith p.1 "min_" then
      match lookupField data (p.1.drop 4) with
      | some v => decide (p.2 ≤ v)
      | none => false
    else true)

/-- When every referenced field is present, `checkConstraints` cannot throw
and decides exactly the satisfaction predicate `bandPasses`. -/
theorem checkConstraints_eq_ok (data cs : List (String × ℚ))
    (hp : FieldsPresent data cs) :
    checkConstraints data cs = .ok (bandPasses data cs) := by
  induction cs with
  | nil => rfl
  | cons p rest ih =>
    obtain ⟨k, t⟩ := p
    have hpr : FieldsPresent data rest := fun q hq => hp q (List.mem_cons_of_mem _ hq)
    have hrest := ih hpr
    by_cases hmax : strStartsWith k "max_"
    · have hne := hp ⟨k, t⟩ (List.mem_cons_self _ _) (by simp [isConstraintKey, hmax])
      obtain ⟨v, hv⟩ := Option.ne_none_iff_exists'.mp hne
      have hR : bandPasses data ((k, t) :: rest) =
          (decide (v ≤ t) && bandPasses data rest) := by
        simp [bandPasses, List.all_cons, hmax, hv]
      have hL : checkConstraints data ((k, t) :: rest) =
          if v > t then .ok false else checkConstraints data rest := by
        simp [checkConstraints, hmax, hv]
      rw [hR, hL]
      rcases le_or_lt v t with hle | hgt
      · rw [if_neg (not_lt.mpr hle), hrest, decide_eq_true hle, Bool.true_and]
      · rw [if_pos hgt, decide_eq_false (not_le.mpr hgt), Bool.false_and]
    · by_cases hmin : strStartsWith k "min_"
      · have hne := hp ⟨k, t⟩ (List.mem_cons_self _ _) (by simp [isConstraintKey, hmin])
        obtain ⟨v, hv⟩ := Option.ne_none_iff_exists'.mp hne
        have hR : bandPasses data ((k, t) :: rest) =
            (decide (t ≤ v) && bandPasses data rest) := by
          simp [bandPasses, List.all_cons, hmax, hmin, hv]
        have hL : checkConstraints data ((k, t) :: rest) =
            if v < t then .ok false else checkConstraints data rest := by
          simp [checkConstraints, hmax, hmin, hv]
        rw [hR, hL]
        rcases le_or_lt t v with hle | hgt
        · rw [if_neg (not_lt.mpr hle), hrest, decide_eq_true hle, Bool.true_and]
        · rw [if_pos hgt, decide_eq_false (not_le.mpr hgt), Bool.false_and]
      · have hR : bandPasses data ((k, t) :: rest) = bandPasses data rest := by
          simp [bandPasses, List.all_cons, hmax, hmin]
        have hL : checkConstraints data ((k, t) :: rest) =
            checkConstraints data rest := by
          simp [checkConstraints, hmax, hmin]
        rw [hR, hL, hrest]

/-- When every band's referenced fields are present, the band search cannot
throw and returns the first band satisfying `bandPasses`. -/
theorem findMatchedBand_eq_ok (data : List (String × ℚ)) (l : List AutonomyBand)
    (hp : ∀ b ∈ l, FieldsPresent data b.constraints) :
    findMatchedBand data l = .ok (l.find? (fun b => bandPasses data b.constraints)) := by
  induction l with
  | nil => rfl
  | cons b rest ih =>
    have hb := checkConstraints_eq_ok data b.constraints (hp b (List.mem_cons_self _ _))
    have hr := ih (fun b' hb' => hp b' (List.mem_cons_of_mem _ hb'))
    by_cases hpass : bandPasses data b.constraints
    · simp [findMatchedBand, hb, hpass, List.find?]
    · simp only [Bool.not_eq_true] at hpass
      simp [findMatchedBand, hb, hpass, List.find?, hr]

/-- In a list sorted ascending by level, the first band satisfying `p` has
a level no greater than that of any band satisfying `p`. -/
theorem find?_level_min (p : AutonomyBand → Bool) (l : List AutonomyBand)
    (hs : List.Pairwise (fun a b : AutonomyBand => a.level ≤ b.level) l)
    (b : AutonomyBand) (hfind : l.find? p = some b) :
    ∀ b' ∈ l, p b' = true → b.level ≤ b'.level := by
  induction l with
  | nil => simp at hfind
  | cons a rest ih =>
    rcases List.pairwise_cons.mp hs with ⟨ha, hrest⟩
    by_cases hpa : p a
    · rw [List.find?_cons_of_pos _ hpa] at hfind
      cases hfind
      intro b' hb' _
      rcases List.mem_cons.mp hb' with h | h
      · exact h ▸ le_refl _
      · exact ha b' h
    · rw [List.find?_cons_of_neg _ hpa] at hfind
      intro b' hb' hpb'
      rcases List.mem_cons.mp hb' with h | h
      · exact absurd (h ▸ hpb') hpa
      · exact ih hrest hfind b' h hpb'

/-- The sorted band list is ascending by level. -/
theorem sortAutonomyBands_sorted (l : List AutonomyBand) :
    List.Pairwise (fun a b : AutonomyBand => a.level ≤ b.level) (sortAutonomyBands l) :=
  @List.sorted_insertionSort AutonomyBand (fun a b => a.level ≤ b.level) _
    ⟨fun a b => Nat.le_total a.level b.level⟩
    ⟨fun _ _ _ hab hbc => Nat.le_trans hab hbc⟩ l

/-- Sorting keeps exactly the original bands. -/
theorem sortAutonomyBands_perm (l : List AutonomyBand) :
    (sortAutonomyBands l).Perm l :=
  List.perm_insertionSort _ l

/-- A key cannot be prefixed both `max_` and `min_`. -/
theorem not_min_of_max {k : String} (h : strStartsWith k "max_" = true) :
    strStartsWith k "min_" = false := by
  rw [strStartsWith, List.isPrefixOf_iff_prefix] at h
  obtain ⟨t1, ht1⟩ := h
  by_contra hmin
  rw [Bool.not_eq_false, strStartsWith, List.isPrefixOf_iff_prefix] at hmin
  obtain ⟨t2, ht2⟩ := hmin
  have e1 : ("max_").data = ['m', 'a', 'x', '_'] := rfl
  have e2 : ("min_").data = ['m', 'i', 'n', '_'] := rfl
  rw [e1] at ht1
  rw [e2] at ht2
  rw [← ht1] at ht2
  simp only [List.cons_append, List.cons.injEq] at ht2
  exact absurd ht2.2.1 (by decide)

/-- A key cannot be prefixed both `min_` and `max_`. -/
theorem not_max_of_min {k : String} (h : strStartsWith k "min_" = true) :
    strStartsWith k "max_" = false := by
  by_contra hmax
  rw [Bool.not_eq_false] at hmax
  exact absurd h (by simp [not_min_of_max hmax])

/-- C6: Constraint thresholds in the Evaluator are inclusive: with every
referenced field present, the constraint check succeeds exactly when every
`max_X` entry has `input[X] <= threshold` and every `min_X` entry has
`input[X] >= threshold`; an input value exactly equal to the threshold
satisfies the constraint. -/
theorem checkConstraints_thresholds_inclusive (data cs : List (String × ℚ))
    (hp : FieldsPresent data cs) :
    checkConstraints data cs = .ok true ↔
      ∀ p ∈ cs, ∀ v : ℚ, lookupField data (p.1.drop 4) = some v →
        (strStartsWith p.1 "max_" = true → v ≤ p.2) ∧
        (strStartsWith p.1 "min_" = true → p.2 ≤ v) := by
  rw [checkConstraints_eq_ok data cs hp, Except.ok.injEq]
  unfold bandPasses
  rw [List.all_eq_true]
  constructor
  · intro hall p hmem v hv
    have h1 := hall p hmem
    constructor
    · intro hmax
      rw [if_pos hmax, hv] at h1
      exact of_decide_eq_true h1
    · intro hmin
      rw [if_neg (by simp [not_max_of_min hmin]), if_pos hmin, hv] at h1
      exact of_decide_eq_true h1
  · intro h p hmem
    by_cases hmax : strStartsWith p.1 "max_"
    · have hne := hp p hmem (by simp [isConstraintKey, hmax])
      obtain ⟨v, hv⟩ := Option.ne_none_iff_exists'.mp hne
      rw [if_pos hmax, hv]
      exact decide_eq_true ((h p hmem v hv).1 hmax)
    · by_cases hmin : strStartsWith p.1 "min_"
      · have hne := hp p hmem (by simp [isConstraintKey, hmin])
        obtain ⟨v, hv⟩ := Option.ne_none_iff_exists'.mp hne
        rw [if_neg hmax, if_pos hmin, hv]
        exact decide_eq_true ((h p hmem v hv).2 hmin)
      · rw [if_neg hmax, if_neg hmin]

/-- Witness for C6 at the spec's L1 band (percent-scaled thresholds):
discount exactly at the `max_` threshold and margin above the `min_`
threshold satisfy the check. -/
theorem checkConstraints_thresholds_inclusive_witness :
    FieldsPresent [("discount_pct", (5 : ℚ)), ("margin_pct", 30)]
      [("max_discount_pct", 5), ("min_margin_pct", 25)] ∧
    (checkConstraints [("discount_pct", (5 : ℚ)), ("margin_pct", 30)]
        [("max_discount_pct", 5), ("min_margin_pct", 25)] = .ok true ↔
      ∀ p ∈ [("max_discount_pct", (5 : ℚ)), ("min_margin_pct", 25)], ∀ v : ℚ,
        lookupField [("discount_pct", 5), ("margin_pct", 30)] (p.1.drop 4) = some v →
        (strStartsWith p.1 "max_" = true → v ≤ p.2) ∧
        (strStartsWith p.1 "min_" = true → p.2 ≤ v)) :=
  ⟨by decide, checkConstraints_thresholds_inclusive _ _ (by decide)⟩

/-- The band search propagates a constraint-check exception as soon as it is
reached, whatever bands follow. -/
theorem findMatchedBand_append_error (data : List (String × ℚ))
    (bad : AutonomyBand) (rest : List AutonomyBand) (e : EvalError)
    (hbad : checkConstraints data bad.constraints = .error e) :
    ∀ pre : List AutonomyBand,
      (∀ b ∈ pre, checkConstraints data b.constraints = .ok false) →
      findMatchedBand data (pre ++ bad :: rest) = .error e := by
  intro pre
  induction pre with
  | nil => intro _; simp [findMatchedBand, hbad]
  | cons b tl ih =>
    intro hpre
    have hb := hpre b (List.mem_cons_self _ _)
    have htl := ih (fun b' hb' => hpre b' (List.mem_cons_of_mem _ hb'))
    simp [findMatchedBand, hb, htl]

/-- C7: when the evaluation (checking bands in ascending level order)
reaches a band whose constraint references a missing input field, the whole
evaluation fails with the `BadRequest` missing-field error — later bands,
including ones that would match, are never tried. -/
theorem evaluate_missing_field_fails_evaluation
    (input : EvaluatorInput) (authority : Authority) (pre : List AutonomyBand)
    (bad : AutonomyBand) (rest : List AutonomyBand) (field key : String)
    (haction : input.action = authority.action)
    (hsorted : sortAutonomyBands authority.autonomyBands = pre ++ bad :: rest)
    (hpre : ∀ b ∈ pre, checkConstraints input.data b.constraints = .ok false)
    (hbad : checkConstraints input.data bad.constraints = .error (.badRequest
      ("Missing required field: " ++ field ++ " (needed for constraint " ++ key ++ ")"))) :
    evaluate input authority = .error (.badRequest
      ("Missing required field: " ++ field ++ " (needed for constraint " ++ key ++ ")")) := by
  have hne : ¬ authority.autonomyBands.isEmpty = true := by
    intro h
    rw [List.isEmpty_iff] at h
    have := congrArg List.length hsorted
    rw [h] at this
    simp [sortAutonomyBands] at this
    omega
  have hfind := findMatchedBand_append_error input.data bad rest _ hbad pre hpre
  rw [← hsorted] at hfind
  unfold evaluate
  rw [if_neg (not_not_intro haction), if_neg hne, hfind]

/-- Witness for C7: the ascending-sorted bands are an L1 band needing the
absent field `x` followed by an L2 band that the input satisfies; the
evaluation nevertheless fails with the missing-field `BadRequest` instead
of approving at L2. -/
theorem evaluate_missing_field_fails_evaluation_witness :
    sortAutonomyBands [⟨1, [("min_x", (1 : ℚ))]⟩, ⟨2, [("min_y", 0)]⟩] =
      [⟨1, [("min_x", (1 : ℚ))]⟩] ++ ⟨2, [("min_y", 0)]⟩ :: [] ∧
    bandPasses [("y", (5 : ℚ))] [("min_y", 0)] = true ∧
    evaluate { action := "act", data := [("y", 5)] }
        { action := "act",
          autonomyBands := [⟨1, [("min_x", 1)]⟩, ⟨2, [("min_y", 0)]⟩] } =
      .error (.badRequest "Missing required field: x (needed for constraint min_x)") :=
  ⟨rfl, by decide,
    evaluate_missing_field_fails_evaluation
      { action := "act", data := [("y", 5)] }
      { action := "act",
        autonomyBands := [⟨1, [("min_x", 1)]⟩, ⟨2, [("min_y", 0)]⟩] }
      [] ⟨1, [("min_x", 1)]⟩ [⟨2, [("min_y", 0)]⟩] "x" "min_x"
      rfl rfl (by simp) rfl⟩

/-- C1 as literally stated fails on the code: the input satisfies every
constraint of the L2 band (so at least one well-formed band is satisfied),
but the L1 band checked first references the absent field `x`, so
`evaluate` throws `BadRequest` instead of approving. -/
theorem evaluate_lowest_level_cex :
    bandPasses [("y", (5 : ℚ))] [("min_y", 0)] = true ∧
    evaluate { action := "act", data := [("y", 5)] }
        { action := "act",
          autonomyBands := [⟨1, [("min_x", 1)]⟩, ⟨2, [("min_y", 0)]⟩] } =
      .error (.badRequest "Missing required field: x (needed for constraint min_x)") :=
  ⟨by decide, rfl⟩

/-- C1 (amended): when the request action matches, every field referenced by
any band is present in the input data, and the data satisfies the
constraints of at least one band, `evaluate` approves at the lowest
satisfied band level — never a higher one, even when several bands pass. -/
theorem evaluate_returns_lowest_satisfied_level
    (input : EvaluatorInput) (authority : Authority)
    (haction : input.action = authority.action)
    (hpresent : ∀ band ∈ authority.autonomyBands, FieldsPresent input.data band.constraints)
    (hsat : ∃ band ∈ authority.autonomyBands, bandPasses input.data band.constraints = true) :
    ∃ r, evaluate input authority = .ok r ∧ r.approved = true ∧
      (∃ band ∈ authority.autonomyBands,
        bandPasses input.data band.constraints = true ∧ r.autonomyLevel = band.level) ∧
      ∀ band ∈ authority.autonomyBands,
        bandPasses input.data band.constraints = true → r.autonomyLevel ≤ band.level := by
  obtain ⟨b0, hb0mem, hb0pass⟩ := hsat
  have hperm := sortAutonomyBands_perm authority.autonomyBands
  have hpres : ∀ b ∈ sortAutonomyBands authority.autonomyBands,
      FieldsPresent input.data b.constraints := fun b hb => hpresent b (hperm.subset hb)
  have hfind := findMatchedBand_eq_ok input.data _ hpres
  obtain ⟨b, hbfind⟩ : ∃ b, (sortAutonomyBands authority.autonomyBands).find?
      (fun b => bandPasses input.data b.constraints) = some b := by
    cases hf : (sortAutonomyBands authority.autonomyBands).find?
        (fun b => bandPasses input.data b.constraints) with
    | some b => exact ⟨b, rfl⟩
    | none =>
      exfalso
      have hnone := List.find?_eq_none.mp hf b0 (hperm.mem_iff.mpr hb0mem)
      simp [hb0pass] at hnone
  have hbmem : b ∈ authority.autonomyBands :=
    hperm.subset (List.mem_of_find?_eq_some hbfind)
  have hbpass := List.find?_some hbfind
  have hmin := find?_level_min _ _ (sortAutonomyBands_sorted authority.autonomyBands) b hbfind
  have hne : ¬ authority.autonomyBands.isEmpty = true := by
    intro h
    rw [List.isEmpty_iff] at h
    rw [h] at hb0mem
    exact absurd hb0mem (List.not_mem_nil b0)
  refine ⟨{ approved := true, autonomyLevel := b.level,
            reason := "Approved under AL" ++ toString b.level ++ " constraints",
            matchedBand := some b },
    ?_, rfl, ⟨b, hbmem, hbpass, rfl⟩, ?_⟩
  · unfold evaluate
    rw [if_neg (not_not_intro haction), if_neg hne, hfind, hbfind]
  · intro band hbandmem hbandpass
    exact hmin band (hperm.mem_iff.mpr hbandmem) hbandpass

/-- Witness for C1 at the spec's three-band example (percent-scaled):
discount 10 / margin 24 satisfies both the L2 and the L3 bands; the theorem
yields approval at the lowest satisfied level. -/
theorem evaluate_returns_lowest_satisfied_level_witness :
    (∀ band ∈ [(⟨1, [("max_discount_pct", (5 : ℚ)), ("min_margin_pct", 25)]⟩ : AutonomyBand),
        ⟨2, [("max_discount_pct", 12), ("min_margin_pct", 23)]⟩,
        ⟨3, [("max_discount_pct", 15), ("min_margin_pct", 22)]⟩],
      FieldsPresent [("discount_pct", 10), ("margin_pct", 24)] band.constraints) ∧
    (∃ band ∈ [(⟨1, [("max_discount_pct", (5 : ℚ)), ("min_margin_pct", 25)]⟩ : AutonomyBand),
        ⟨2, [("max_discount_pct", 12), ("min_margin_pct", 23)]⟩,
        ⟨3, [("max_discount_pct", 15), ("min_margin_pct", 22)]⟩],
      bandPasses [("discount_pct", 10), ("margin_pct", 24)] band.constraints = true) ∧
    (∃ r, evaluate
        { action := "approve_discount", data := [("discount_pct", 10), ("margin_pct", 24)] }
        { action := "approve_discount",
          autonomyBands := [⟨1, [("max_discount_pct", 5), ("min_margin_pct", 25)]⟩,
            ⟨2, [("max_discount_pct", 12), ("min_margin_pct", 23)]⟩,
            ⟨3, [("max_discount_pct", 15), ("min_margin_pct", 22)]⟩],
          escalation := some { ifOutside := "CFO" } } = .ok r ∧ r.approved = true ∧
      (∃ band ∈ [(⟨1, [("max_discount_pct", (5 : ℚ)), ("min_margin_pct", 25)]⟩ : AutonomyBand),
          ⟨2, [("max_discount_pct", 12), ("min_margin_pct", 23)]⟩,
          ⟨3, [("max_discount_pct", 15), ("min_margin_pct", 22)]⟩],
        bandPasses [("discount_pct", 10), ("margin_pct", 24)] band.constraints = true ∧
          r.autonomyLevel = band.level) ∧
      ∀ band ∈ [(⟨1, [("max_discount_pct", (5 : ℚ)), ("min_margin_pct", 25)]⟩ : AutonomyBand),
          ⟨2, [("max_discount_pct", 12), ("min_margin_pct", 23)]⟩,
          ⟨3, [("max_discount_pct", 15), ("min_margin_pct", 22)]⟩],
        bandPasses [("discount_pct", 10), ("margin_pct", 24)] band.constraints = true →
          r.autonomyLevel ≤ band.level) :=
  ⟨by decide, by decide,
    evaluate_returns_lowest_satisfied_level
      { action := "approve_discount", data := [("discount_pct", 10), ("margin_pct", 24)] }
      { action := "approve_discount",
        autonomyBands := [⟨1, [("max_discount_pct", 5), ("min_margin_pct", 25)]⟩,
          ⟨2, [("max_discount_pct", 12), ("min_margin_pct", 23)]⟩,
          ⟨3, [("max_discount_pct", 15), ("min_margin_pct", 22)]⟩],
        escalation := some { ifOutside := "CFO" } }
      rfl (by decide) (by decide)⟩

/-- C8: a decision with autonomy level 0 yields no reward signal, whatever
the outcome metrics and constraints contain. -/
theorem computeReward_null_for_al0 (input : RewardInput)
    (h : input.decision.autonomyLevel = 0) : computeReward input = none := by
  simp [computeReward, h]

/-- Witness for C8: an escalated decision with a rich (even successful)
outcome still gets no reward. -/
theorem computeReward_null_for_al0_witness :
    ({ decision := { autonomyLevel := 0, inputs := Json.null, output := Json.null,
                     policyVersion := "finance-constitution@1.0.0", node := "finance" },
       outcome := { metrics := [("success", JsVal.bool true), ("won", JsVal.str "whatever"),
                                ("margin_pct", JsVal.num 50)] },
       matchedBandConstraints := some [("min_margin_pct", 25)] } : RewardInput).decision.autonomyLevel
        = 0 ∧
    computeReward
      { decision := { autonomyLevel := 0, inputs := Json.null, output := Json.null,
                      policyVersion := "finance-constitution@1.0.0", node := "finance" },
        outcome := { metrics := [("success", JsVal.bool true), ("won", JsVal.str "whatever"),
                                 ("margin_pct", JsVal.num 50)] },
        matchedBandConstraints := some [("min_margin_pct", 25)] } = none :=
  ⟨rfl, computeReward_null_for_al0 _ rfl⟩

/-- The C3 counterexample input: `success` present but a string, `won` a
boolean `true`; the claim's reading (fall back to `won` whenever `success`
is not a present boolean) predicts a successful reward. -/
def c3CexInput : RewardInput :=
  { decision := { autonomyLevel := 2, inputs := Json.null, output := Json.null,
                  policyVersion := "finance-constitution@1.0.0", node := "finance" },
    outcome := { metrics := [("success", JsVal.str "yes"), ("won", JsVal.bool true)] },
    matchedBandConstraints := some [] }

/-- C3 as literally stated fails on the code: with `success` present but
non-boolean and `won = true`, the nullish `??` chain keeps the non-boolean
`success` value instead of falling back to `won`, and the reward is the
invalid-metric failure, not a success.  (The repository's own reward tests
pin exactly this behaviour.) -/
theorem computeReward_success_fallback_cex :
    computeReward c3CexInput =
      some { success := false, reason := "Missing or invalid 'success' outcome metric",
             score := some 0 } ∧
    (computeReward c3CexInput).map RewardResult.success ≠ some true :=
  ⟨rfl, by decide⟩

/-- C3 (amended): for autonomy level ≠ 0, the success indicator is
`metrics["success"] ?? metrics["won"] ?? false` — the nullish chain, so a
present non-null `success` value is used as-is even when non-boolean.  A
non-boolean indicator yields the invalid-metric failure with score 0; a
`false` indicator yields the unsuccessful-outcome failure; and when both
fields are absent or null the indicator defaults to the boolean `false`
(so the reason is the unsuccessful-outcome one, not the invalid-metric
one). -/
theorem computeReward_success_indicator_semantics (input : RewardInput)
    (h : input.decision.autonomyLevel ≠ 0) :
    (∀ v : JsVal, successIndicator input.outcome.metrics = some v →
      (∀ b : Bool, v ≠ .bool b) →
      computeReward input =
        some { success := false,
               reason := "Missing or invalid 'success' outcome metric",
               score := some 0 }) ∧
    (successIndicator input.outcome.metrics = some (.bool false) →
      computeReward input =
        some { success := false,
               reason := "Outcome marked as unsuccessful",
               score := some 0 }) ∧
    ((jsLookup input.outcome.metrics "success" = none ∨
        jsLookup input.outcome.metrics "success" = some .null) →
      (jsLookup input.outcome.metrics "won" = none ∨
        jsLookup input.outcome.metrics "won" = some .null) →
      successIndicator input.outcome.metrics = some (.bool false)) ∧
    (∀ v : JsVal, jsLookup input.outcome.metrics "success" = some v → v ≠ .null →
      successIndicator input.outcome.metrics = some v) := by
  refine ⟨?_, ?_, ?_, ?_⟩
  · intro v hv hnb
    cases v with
    | bool b => exact absurd rfl (hnb b)
    | num q => simp [computeReward, h, hv]
    | str s => simp [computeReward, h, hv]
    | null => simp [computeReward, h, hv]
  · intro hv
    simp [computeReward, h, hv]
  · intro hs hw
    unfold successIndicator jsNullish
    rcases hs with hs | hs <;> rcases hw with hw | hw <;> rw [hs, hw]
  · intro v hs hvnull
    unfold successIndicator jsNullish
    rw [hs]
    cases v with
    | null => exact absurd rfl hvnull
    | bool b => rfl
    | num q => rfl
    | str s => rfl

/-- Witness input for the amended C3: autonomy level 2, no success or won
field at all. -/
def c3WitnessInput : RewardInput :=
  { decision := { autonomyLevel := 2, inputs := Json.null, output := Json.null,
                  policyVersion := "finance-constitution@1.0.0", node := "finance" },
    outcome := { metrics := [("margin_pct", JsVal.num 25)] },
    matchedBandConstraints := some [("min_margin_pct", 23)] }

/-- Witness for the amended C3 at a metrics record with neither `success`
nor `won`. -/
theorem computeReward_success_indicator_semantics_witness :
    c3WitnessInput.decision.autonomyLevel ≠ 0 ∧
    ((∀ v : JsVal, successIndicator c3WitnessInput.outcome.metrics = some v →
      (∀ b : Bool, v ≠ .bool b) →
      computeReward c3WitnessInput =
        some { success := false,
               reason := "Missing or invalid 'success' outcome metric",
               score := some 0 }) ∧
    (successIndicator c3WitnessInput.outcome.metrics = some (.bool false) →
      computeReward c3WitnessInput =
        some { success := false,
               reason := "Outcome marked as unsuccessful",
               score := some 0 }) ∧
    ((jsLookup c3WitnessInput.outcome.metrics "success" = none ∨
        jsLookup c3WitnessInput.outcome.metrics "success" = some .null) →
      (jsLookup c3WitnessInput.outcome.metrics "won" = none ∨
        jsLookup c3WitnessInput.outcome.metrics "won" = some .null) →
      successIndicator c3WitnessInput.outcome.metrics = some (.bool false)) ∧
    (∀ v : JsVal, jsLookup c3WitnessInput.outcome.metrics "success" = some v →
      v ≠ .null → successIndicator c3WitnessInput.outcome.metrics = some v)) :=
  ⟨by decide, computeReward_success_indicator_semantics c3WitnessInput (by decide)⟩

/-- The evaluator result of the spec's finance example (discount 10 /
margin 24 against the three bands): approved at L2 with the L2 band
attached as `matchedBand`. -/
def c2EvalResult : EvaluatorResult :=
  { approved := true, autonomyLevel := 2, reason := "Approved under AL2 constraints",
    matchedBand := some ⟨2, [("max_discount_pct", 12), ("min_margin_pct", 23)]⟩ }

/-- C2 fails on the code (code bug): the output object persisted by
`makeDecision` never contains a `matchedBand` key — it only carries
`approved`, `autonomyLevel`, `reason` and possibly `escalationTarget` — so
the outcomes route's `(decision.output as any)?.matchedBand?.constraints`
is always `undefined` and `computeReward` receives no constraints.
Concretely: the finance example evaluation matches the L2 band, the
persisted output yields no constraints, and an outcome whose margin
violates the matched band's `min_margin_pct` is still rewarded as a full
success, even though validating the matched constraints would have flagged
it. -/
theorem decision_output_drops_matched_band :
    (∀ er : EvaluatorResult, extractMatchedBandConstraints (buildDecisionOutput er) = none) ∧
    evaluate { action := "approve_discount", data := [("discount_pct", 10), ("margin_pct", 24)] }
      { action := "approve_discount",
        autonomyBands := [⟨1, [("max_discount_pct", 5), ("min_margin_pct", 25)]⟩,
          ⟨2, [("max_discount_pct", 12), ("min_margin_pct", 23)]⟩,
          ⟨3, [("max_discount_pct", 15), ("min_margin_pct", 22)]⟩],
        escalation := some { ifOutside := "CFO" } } = .ok c2EvalResult ∧
    c2EvalResult.matchedBand = some ⟨2, [("max_discount_pct", 12), ("min_margin_pct", 23)]⟩ ∧
    computeReward
      { decision := { autonomyLevel := 2, inputs := Json.null,
                      output := buildDecisionOutput c2EvalResult,
                      policyVersion := "finance-constitution@1.0.0", node := "finance" },
        outcome := { metrics := [("success", JsVal.bool true), ("margin_pct", JsVal.num 10)] },
        matchedBandConstraints := none } =
      some { success := true, reason := "Outcome successful and constraints satisfied",
             score := some 1 } ∧
    validateConstraints [("success", JsVal.bool true), ("margin_pct", JsVal.num 10)]
      [("max_discount_pct", 12), ("min_margin_pct", 23)] ≠ [] := by
  refine ⟨?_, rfl, rfl, rfl, by decide⟩
  intro er
  unfold extractMatchedBandConstraints buildDecisionOutput jsonGet
  cases er.escalationTarget with
  | none => rfl
  | some t =>
    by_cases ht : t = ""
    · simp only [ht, if_pos]
      rfl
    · simp only [if_neg ht]
      rfl

/-! ### Irrelevant constraint keys (claim C10) -/

/-- Keeps only the entries whose key the engines act on. -/
def filterConstraintEntries (cs : List (String × ℚ)) : List (String × ℚ) :=
  cs.filter (fun p => isConstraintKey p.1)

/-- A band with only its `min_`/`max_` constraint entries. -/
def filterBand (b : AutonomyBand) : AutonomyBand :=
  ⟨b.level, filterConstraintEntries b.constraints⟩

/-- An authority whose bands carry only `min_`/`max_` constraint entries. -/
def filterAuthority (a : Authority) : Authority :=
  { a with autonomyBands := a.autonomyBands.map filterBand }

/-- Dropping entries with neither prefix does not change the evaluator's
constraint check (result or thrown error). -/
theorem checkConstraints_filter (data cs : List (String × ℚ)) :
    checkConstraints data (filterConstraintEntries cs) = checkConstraints data cs := by
  induction cs with
  | nil => rfl
  | cons p rest ih =>
    obtain ⟨k, t⟩ := p
    by_cases hmax : strStartsWith k "max_"
    · have hkeep : isConstraintKey k = true := by simp [isConstraintKey, hmax]
      simp only [filterConstraintEntries, List.filter_cons, hkeep, if_pos]
      simp only [checkConstraints, hmax, if_pos]
      cases lookupField data (k.drop 4) with
      | none => rfl
      | some v =>
        by_cases hvt : v > t
        · simp [hvt]
        · simp only [hvt, if_neg]
          exact ih
    · by_cases hmin : strStartsWith k "min_"
      · have hkeep : isConstraintKey k = true := by simp [isConstraintKey, hmin]
        simp only [filterConstraintEntries, List.filter_cons, hkeep, if_pos]
        simp only [checkConstraints, hmax, hmin, if_neg, if_pos]
        cases lookupField data (k.drop 4) with
        | none => simp [hmax]
        | some v =>
          by_cases hvt : v < t
          · simp [hmax, hvt]
          · simp only [hmax, hvt, if_neg, Bool.false_eq_true]
            exact ih
      · have hdrop : isConstraintKey k = false := by simp [isConstraintKey, hmax, hmin]
        simp only [filterConstraintEntries, List.filter_cons, hdrop]
        simp only [checkConstraints, hmax, hmin, if_neg, Bool.false_eq_true]
        exact ih

/-- Dropping entries with neither prefix does not change the reward
engine's outcome validation. -/
theorem validateConstraints_filter (metrics : List (String × JsVal))
    (cs : List (String × ℚ)) :
    validateConstraints metrics (filterConstraintEntries cs) =
      validateConstraints metrics cs := by
  induction cs with
  | nil => rfl
  | cons p rest ih =>
    obtain ⟨k, t⟩ := p
    by_cases hdrop : isConstraintKey k
    · have hfc : filterConstraintEntries ((k, t) :: rest) =
          (k, t) :: filterConstraintEntries rest := by
        simp [filterConstraintEntries, hdrop]
      rw [hfc]
      simp only [validateConstraints]
      exact congrArg _ ih
    · have hfc : filterConstraintEntries ((k, t) :: rest) =
          filterConstraintEntries rest := by
        simp [filterConstraintEntries, hdrop]
      have hmax : ¬ strStartsWith k "max_" = true := fun h =>
        hdrop (by simp [isConstraintKey, h])
      have hmin : ¬ strStartsWith k "min_" = true := fun h =>
        hdrop (by simp [isConstraintKey, h])
      rw [hfc, ih]
      simp [validateConstraints, hmin, hmax]

/-- Dropping irrelevant entries from the matched constraints does not
change the reward. -/
theorem computeReward_filter (input : RewardInput) :
    computeReward
      { input with matchedBandConstraints :=
          input.matchedBandConstraints.map filterConstraintEntries } =
    computeReward input := by
  by_cases h0 : input.decision.autonomyLevel = 0
  · simp [computeReward, h0]
  · cases hm : input.matchedBandConstraints with
    | none => simp [computeReward, h0, hm]
    | some cs =>
      simp [computeReward, h0, hm, validateConstraints_filter, computeScore]

/-- `orderedInsert` commutes with a map that preserves the sort relation. -/
theorem map_orderedInsert_rel {α β : Type} (r : α → α → Prop) (s : β → β → Prop)
    [DecidableRel r] [DecidableRel s] (f : α → β)
    (hf : ∀ a b, r a b ↔ s (f a) (f b)) (a : α) (l : List α) :
    (List.orderedInsert r a l).map f = List.orderedInsert s (f a) (l.map f) := by
  induction l with
  | nil => simp [List.orderedInsert]
  | cons b t ih =>
    by_cases h : r a b
    · simp [List.orderedInsert, h, (hf a b).mp h]
    · have hs : ¬ s (f a) (f b) := fun hsab => h ((hf a b).mpr hsab)
      simp [List.orderedInsert, h, hs, ih]

/-- `insertionSort` commutes with a map that preserves the sort relation. -/
theorem map_insertionSort_rel {α β : Type} (r : α → α → Prop) (s : β → β → Prop)
    [DecidableRel r] [DecidableRel s] (f : α → β)
    (hf : ∀ a b, r a b ↔ s (f a) (f b)) (l : List α) :
    (List.insertionSort r l).map f = List.insertionSort s (l.map f) := by
  induction l with
  | nil => rfl
  | cons a t ih => simp [List.insertionSort, map_orderedInsert_rel r s f hf, ih]

/-- Filtering band constraints commutes with the level sort (levels are
unchanged). -/
theorem sortAutonomyBands_map_filter (l : List AutonomyBand) :
    sortAutonomyBands (l.map filterBand) = (sortAutonomyBands l).map filterBand := by
  unfold sortAutonomyBands
  exact (map_insertionSort_rel _ _ filterBand (fun a b => Iff.rfl) l).symm

/-- Filtering band constraints does not change which band the search
matches (up to the echoed band being filtered) nor any thrown error. -/
theorem findMatchedBand_map_filter (data : List (String × ℚ)) (l : List AutonomyBand) :
    findMatchedBand data (l.map filterBand) =
      (findMatchedBand data l).map (Option.map filterBand) := by
  induction l with
  | nil => rfl
  | cons b rest ih =>
    have hc : checkConstraints data (filterBand b).constraints =
        checkConstraints data b.constraints := checkConstraints_filter data b.constraints
    cases hcc : checkConstraints data b.constraints with
    | error e =>
      simp only [List.map_cons, findMatchedBand, hc, hcc]
      rfl
    | ok v =>
      cases v with
      | false => simpa [findMatchedBand, hc, hcc] using ih
      | true =>
        simp only [List.map_cons, findMatchedBand, hc, hcc]
        rfl

/-- C10: entries whose key starts with neither `min_` nor `max_` impose no
restriction anywhere: the evaluator's constraint check and the reward
engine's outcome validation are unchanged when they are removed, the
reward result is unchanged, and the evaluation result is unchanged apart
from the echoed matched band itself carrying the filtered record. -/
theorem irrelevant_constraint_keys_ignored :
    (∀ (data cs : List (String × ℚ)),
      checkConstraints data (filterConstraintEntries cs) = checkConstraints data cs) ∧
    (∀ (metrics : List (String × JsVal)) (cs : List (String × ℚ)),
      validateConstraints metrics (filterConstraintEntries cs) =
        validateConstraints metrics cs) ∧
    (∀ input : RewardInput,
      computeReward { input with matchedBandConstraints :=
          input.matchedBandConstraints.map filterConstraintEntries } =
        computeReward input) ∧
    (∀ (input : EvaluatorInput) (authority : Authority),
      evaluate input (filterAuthority authority) =
        (evaluate input authority).map
          (fun r => { r with matchedBand := r.matchedBand.map filterBand })) := by
  refine ⟨checkConstraints_filter, validateConstraints_filter, computeReward_filter, ?_⟩
  intro input authority
  have haction : (filterAuthority authority).action = authority.action := rfl
  have hescal : (filterAuthority authority).escalation = authority.escalation := rfl
  have hbands : (filterAuthority authority).autonomyBands =
      authority.autonomyBands.map filterBand := rfl
  have hempty : (authority.autonomyBands.map filterBand).isEmpty =
      authority.autonomyBands.isEmpty := by
    cases authority.autonomyBands <;> rfl
  unfold evaluate
  rw [haction, hescal, hbands, hempty, sortAutonomyBands_map_filter,
    findMatchedBand_map_filter]
  by_cases ha : input.action ≠ authority.action
  · rw [if_pos ha, if_pos ha]
    rfl
  · rw [if_neg ha, if_neg ha]
    by_cases he : authority.autonomyBands.isEmpty
    · rw [if_pos he, if_pos he]
      rfl
    · rw [if_neg he, if_neg he]
      cases hf : findMatchedBand input.data (sortAutonomyBands authority.autonomyBands) with
      | error e => rfl
      | ok ob =>
        cases ob with
        | none => rfl
        | some b => rfl

namespace PolicyLoader

/-- The backing read `load` performs on a cache miss: by exact version when
one was given, otherwise latest by creation time. -/
def dbRead (store : List PolicyVersionRow) (name : String) (version : Option String) :
    Option PolicyVersionRow :=
  match version with
  | some v => loadSpecificFromDb store name v
  | none => loadLatestFromDb store name

/-- Looking up the key just written by `cacheSet` returns the new entry. -/
theorem cacheLookup_cacheSet (c : Cache) (key : String) (e : CacheEntry) :
    cacheLookup (cacheSet c key e) key = some e := by
  unfold cacheSet cacheErase cacheLookup
  induction c with
  | nil => simp
  | cons p rest ih =>
    by_cases h : p.1 == key
    · simp only [List.filter_cons, h]
      simp only [Bool.not_true, if_neg]
      exact ih
    · have hfalse : (p.1 == key) = false := by
        cases hb : (p.1 == key)
        · rfl
        · exact absurd hb h
      simp only [List.filter_cons, hfalse]
      simp only [Bool.not_false, if_pos]
      simp only [List.find?, hfalse]
      exact ih

/-- `getCached` on a fresh entry: a hit, cache untouched. -/
theorem getCached_hit (cache : Cache) (now : ℕ) (name : String)
    (version : Option String) (e : CacheEntry)
    (hlook : cacheLookup cache (cacheKey name version) = some e)
    (hfresh : ¬ (now - e.timestamp > CACHE_TTL_MS)) :
    getCached cache now name version = (some e.policy, cache) := by
  simp only [getCached]
  rw [hlook]
  simp [hfresh]

/-- `getCached` on a stale entry: evicted and reported as a miss. -/
theorem getCached_stale (cache : Cache) (now : ℕ) (name : String)
    (version : Option String) (e : CacheEntry)
    (hlook : cacheLookup cache (cacheKey name version) = some e)
    (hstale : now - e.timestamp > CACHE_TTL_MS) :
    getCached cache now name version =
      (none, cacheErase cache (cacheKey name version)) := by
  simp only [getCached]
  rw [hlook]
  simp [hstale]

/-- `load` reduced on a successful parse. -/
theorem load_eq (store : List PolicyVersionRow) (cache : Cache) (now : ℕ)
    (policyName name : String) (version : Option String)
    (hp : parsePolicyName policyName = .ok (name, version)) :
    load store cache now policyName =
      match getCached cache now name version with
      | (some policy, cache1) => .ok (policy, cache1, 0)
      | (none, cache1) =>
        match version with
        | some v =>
          match loadSpecificFromDb store name v with
          | none => .error (.notFound ("Policy version " ++ name ++ "@" ++ v ++ " not found"))
          | some policy => .ok (policy, setCache cache1 name version policy now, 1)
        | none =>
          match loadLatestFromDb store name with
          | none => .error (.notFound ("Policy " ++ name ++ "@latest not found"))
          | some policy => .ok (policy, setCache cache1 name none policy now, 1) := by
  cases hg : getCached cache now name version with
  | mk hit cache1 =>
    cases hit with
    | some q => simp [load, hp, hg]
    | none =>
      cases version with
      | some v => simp [load, hp, hg]
      | none => simp [load, hp, hg]

end PolicyLoader

/-- C9: (1) after a load that performed its single backing read, a second
load of the same reference whose time lies within the 60s TTL window
returns the same policy row, performs no backing read, and leaves the cache
untouched; (2) a cache entry strictly older than the TTL is evicted at read
time and the load falls through to exactly one backing read, repopulating
the cache. -/
theorem policy_cache_ttl_behaviour :
    (∀ (store : List PolicyVersionRow) (cache0 : PolicyLoader.Cache) (t0 t1 : ℕ)
        (policyName : String) (p : PolicyVersionRow) (c1 : PolicyLoader.Cache),
      PolicyLoader.load store cache0 t0 policyName = .ok (p, c1, 1) →
      t1 - t0 ≤ PolicyLoader.CACHE_TTL_MS →
      PolicyLoader.load store c1 t1 policyName = .ok (p, c1, 0)) ∧
    (∀ (store : List PolicyVersionRow) (cache : PolicyLoader.Cache) (t : ℕ)
        (policyName name : String) (version : Option String)
        (e : PolicyLoader.CacheEntry) (p : PolicyVersionRow),
      PolicyLoader.parsePolicyName policyName = .ok (name, version) →
      PolicyLoader.cacheLookup cache (PolicyLoader.cacheKey name version) = some e →
      t - e.timestamp > PolicyLoader.CACHE_TTL_MS →
      PolicyLoader.dbRead store name version = some p →
      PolicyLoader.load store cache t policyName =
        .ok (p, PolicyLoader.setCache (PolicyLoader.cacheErase cache
          (PolicyLoader.cacheKey name version)) name version p t, 1)) := by
  constructor
  · intro store cache0 t0 t1 policyName p c1 hload httl
    cases hp : PolicyLoader.parsePolicyName policyName with
    | error e =>
      rw [PolicyLoader.load] at hload
      rw [hp] at hload
      exact absurd hload (by simp)
    | ok nv =>
      obtain ⟨name, version⟩ := nv
      rw [PolicyLoader.load_eq store cache0 t0 policyName name version hp] at hload
      have hkey : PolicyLoader.cacheLookup c1 (PolicyLoader.cacheKey name version) =
          some { policy := p, timestamp := t0 } := by
        rcases hg : PolicyLoader.getCached cache0 t0 name version with ⟨hit, cacheA⟩
        rw [hg] at hload
        cases hit with
        | some q => simp at hload
        | none =>
          dsimp only at hload
          cases version with
          | some v =>
            dsimp only at hload
            cases hdb : PolicyLoader.loadSpecificFromDb store name v with
            | none => rw [hdb] at hload; simp at hload
            | some q =>
              rw [hdb] at hload
              simp only [Except.ok.injEq, Prod.mk.injEq] at hload
              obtain ⟨hq, hc1, -⟩ := hload
              rw [← hc1, ← hq]
              exact PolicyLoader.cacheLookup_cacheSet _ _ _
          | none =>
            dsimp only at hload
            cases hdb : PolicyLoader.loadLatestFromDb store name with
            | none => rw [hdb] at hload; simp at hload
            | some q =>
              rw [hdb] at hload
              simp only [Except.ok.injEq, Prod.mk.injEq] at hload
              obtain ⟨hq, hc1, -⟩ := hload
              rw [← hc1, ← hq]
              exact PolicyLoader.cacheLookup_cacheSet _ _ _
      rw [PolicyLoader.load_eq store c1 t1 policyName name version hp,
        PolicyLoader.getCached_hit c1 t1 name version _ hkey (not_lt.mpr httl)]
  · intro store cache t policyName name version e p hp hlook hstale hdb
    rw [PolicyLoader.load_eq store cache t policyName name version hp,
      PolicyLoader.getCached_stale cache t name version e hlook hstale]
    cases version with
    | some v =>
      rw [PolicyLoader.dbRead] at hdb
      dsimp only
      rw [hdb]
    | none =>
      rw [PolicyLoader.dbRead] at hdb
      dsimp only
      rw [hdb]

/-- Witness policy row for C9. -/
def c9Row : PolicyVersionRow :=
  { id := 1, name := "fin", version := "1", doc := Json.null, createdAt := 10 }

/-- The cache state after the first witness load. -/
def c9Cache : PolicyLoader.Cache := [("fin@1", { policy := c9Row, timestamp := 0 })]

/-- Witness for C9: a first load at t=0 does one backing read; a reload at
t=60000 (still within the TTL) is a pure cache hit; a reload at t=60001
evicts the stale entry and performs one backing read. -/
theorem policy_cache_ttl_behaviour_witness :
    PolicyLoader.load [c9Row] [] 0 "fin@1" = .ok (c9Row, c9Cache, 1) ∧
    PolicyLoader.load [c9Row] c9Cache 60000 "fin@1" = .ok (c9Row, c9Cache, 0) ∧
    PolicyLoader.load [c9Row] c9Cache 60001 "fin@1" =
      .ok (c9Row, PolicyLoader.setCache (PolicyLoader.cacheErase c9Cache "fin@1")
        "fin" (some "1") c9Row 60001, 1) :=
  ⟨rfl,
   policy_cache_ttl_behaviour.1 [c9Row] [] 0 60000 "fin@1" c9Row c9Cache rfl (by decide),
   policy_cache_ttl_behaviour.2 [c9Row] c9Cache 60001 "fin@1" "fin" (some "1")
     { policy := c9Row, timestamp := 0 } c9Row rfl rfl (by decide) rfl⟩

/-! ### Chain integrity (claim C4) -/

/-- Rows pairwise strictly increasing in timestamp (a single sequential
writer whose clock advances between appends). -/
def RowsTsIncreasing (l : List DecisionRow) : Prop :=
  List.Pairwise (fun a b : DecisionRow => a.ts < b.ts) l

/-- The ledger forms an unbroken hash chain starting from `p`: each row's
`prevHash` is the hash of its predecessor (`p` for the first row). -/
def chainedFrom (p : Option String) : List DecisionRow → Prop
  | [] => True
  | r :: rest => r.prevHash = p ∧ chainedFrom (some r.hash) rest

/-- With strictly increasing timestamps, the `findFirst` by descending
timestamp is the last inserted row. -/
theorem latestDecision_eq_getLast (l : List DecisionRow)
    (h : RowsTsIncreasing l) : latestDecision l = l.getLast? := by
  induction l with
  | nil => rfl
  | cons r rest ih =>
    rcases List.pairwise_cons.mp h with ⟨hr, hrest⟩
    cases rest with
    | nil => rfl
    | cons x xs =>
      have hlast : latestDecision (x :: xs) = (x :: xs).getLast? := ih hrest
      obtain ⟨b, hb⟩ : ∃ b, (x :: xs).getLast? = some b := by
        cases hgl : (x :: xs).getLast? with
        | some b => exact ⟨b, rfl⟩
        | none => exact absurd hgl (by simp)
      have hbmem : b ∈ x :: xs := List.mem_of_mem_getLast? hb
      have hrb : r.ts < b.ts := hr b hbmem
      rw [List.getLast?_cons_cons, hb]
      have hstep : latestDecision (r :: x :: xs) =
          match latestDecision (x :: xs) with
          | none => some r
          | some b => if b.ts ≥ r.ts then some b else some r := rfl
      rw [hstep, hlast, hb]
      dsimp only
      rw [if_pos (le_of_lt hrb)]

/-- Appending one row extends the chain exactly when the new row's
`prevHash` is the hash of the current last row (or `p` on an empty
ledger). -/
theorem chainedFrom_append (p : Option String) (l : List DecisionRow)
    (r : DecisionRow) :
    chainedFrom p (l ++ [r]) ↔
      chainedFrom p l ∧ r.prevHash = (match l.getLast? with
        | some b => some b.hash
        | none => p) := by
  induction l generalizing p with
  | nil => simp [chainedFrom]
  | cons x xs ih =>
    have hcons : (x :: xs) ++ [r] = x :: (xs ++ [r]) := rfl
    rw [hcons]
    show (x.prevHash = p ∧ chainedFrom (some x.hash) (xs ++ [r])) ↔ _
    rw [ih (some x.hash)]
    cases xs with
    | nil => simp [chainedFrom, and_assoc]
    | cons y ys =>
      obtain ⟨b, hb⟩ : ∃ b, (y :: ys).getLast? = some b := by
        cases hgl : (y :: ys).getLast? with
        | some b => exact ⟨b, rfl⟩
        | none => exact absurd hgl (by simp)
      rw [List.getLast?_cons_cons, hb]
      simp only [chainedFrom]
      tauto

/-- Invariant of the sequential append loop: starting from a
timestamp-sorted, correctly chained ledger strictly older than all pending
requests, appending requests with strictly increasing timestamps keeps the
ledger sorted and chained and grows it by one row per request. -/
theorem buildLedger_invariant (requests : List AppendRequest) :
    ∀ ledger : List DecisionRow,
      RowsTsIncreasing ledger → chainedFrom none ledger →
      (∀ r ∈ requests, ∀ d ∈ ledger, d.ts < r.ts) →
      List.Pairwise (fun a b : AppendRequest => a.ts < b.ts) requests →
      RowsTsIncreasing (requests.foldl
          (fun ledger r => appendDecision ledger r.node r.data r.evaluationResult
            r.policyVersion r.correlationId r.ts r.latencyMs) ledger) ∧
        chainedFrom none (requests.foldl
          (fun ledger r => appendDecision ledger r.node r.data r.evaluationResult
            r.policyVersion r.correlationId r.ts r.latencyMs) ledger) ∧
        (requests.foldl
          (fun ledger r => appendDecision ledger r.node r.data r.evaluationResult
            r.policyVersion r.correlationId r.ts r.latencyMs) ledger).length =
          ledger.length + requests.length := by
  induction requests with
  | nil =>
    intro ledger h1 h2 _ _
    exact ⟨h1, h2, by simp⟩
  | cons r rest ih =>
    intro ledger h1 h2 hbound hreq
    rw [List.foldl_cons]
    obtain ⟨row, hrow, hrowts, hrowprev⟩ : ∃ row : DecisionRow,
        appendDecision ledger r.node r.data r.evaluationResult r.policyVersion
            r.correlationId r.ts r.latencyMs = ledger ++ [row] ∧
          row.ts = r.ts ∧
          row.prevHash = (latestDecision ledger).map (fun d => d.hash) :=
      ⟨_, rfl, rfl, rfl⟩
    rw [hrow]
    rcases List.pairwise_cons.mp hreq with ⟨hrfirst, hrest⟩
    have hsorted : RowsTsIncreasing (ledger ++ [row]) := by
      refine List.pairwise_append.mpr ⟨h1, List.pairwise_singleton _ _, ?_⟩
      intro a ha b hb
      rw [List.mem_singleton.mp hb, hrowts]
      exact hbound r (List.mem_cons_self _ _) a ha
    have hchained : chainedFrom none (ledger ++ [row]) := by
      refine (chainedFrom_append none ledger row).mpr ⟨h2, ?_⟩
      rw [hrowprev, latestDecision_eq_getLast ledger h1]
      cases ledger.getLast? with
      | none => rfl
      | some b => rfl
    have hbound' : ∀ q ∈ rest, ∀ d ∈ ledger ++ [row], d.ts < q.ts := by
      intro q hq d hd
      rcases List.mem_append.mp hd with hd | hd
      · exact hbound q (List.mem_cons_of_mem _ hq) d hd
      · rw [List.mem_singleton.mp hd, hrowts]
        exact hrfirst q hq
    have := ih (ledger ++ [row]) hsorted hchained hbound' hrest
    simpa [Nat.add_assoc, Nat.add_comm 1 rest.length] using this

/-- The first row of a chain from `p` has `prevHash = p`. -/
theorem chainedFrom_get_zero (p : Option String) (l : List DecisionRow)
    (h : chainedFrom p l) (h0 : 0 < l.length) :
    (l.get ⟨0, h0⟩).prevHash = p := by
  cases l with
  | nil => simp at h0
  | cons r rest => exact h.1

/-- Each later row of a chain carries its predecessor's hash. -/
theorem chainedFrom_get_succ (l : List DecisionRow) (p : Option String)
    (h : chainedFrom p l) :
    ∀ i (hi : i + 1 < l.length),
      (l.get ⟨i + 1, hi⟩).prevHash =
        some ((l.get ⟨i, Nat.lt_of_succ_lt hi⟩).hash) := by
  induction l generalizing p with
  | nil => intro i hi; simp at hi
  | cons r rest ih =>
    intro i hi
    cases i with
    | zero =>
      have h0 : 0 < rest.length := by simpa using hi
      have := chainedFrom_get_zero (some r.hash) rest h.2 h0
      simpa using this
    | succ j =>
      have := ih (some r.hash) h.2 j (by simpa using hi)
      simpa using this

/-- C4: for a sequence of decisions appended one after another by a single
writer with strictly increasing timestamps, starting from an empty table,
the resulting ledger has one row per request, the first row's `prevHash` is
null, and every later row's `prevHash` is the previous row's `hash` — the
chain reproduces the insertion order. -/
theorem decision_chain_reproduces_insertion_order (requests : List AppendRequest)
    (hts : List.Pairwise (fun a b : AppendRequest => a.ts < b.ts) requests) :
    (buildLedger requests).length = requests.length ∧
    (∀ h0 : 0 < (buildLedger requests).length,
      ((buildLedger requests).get ⟨0, h0⟩).prevHash = none) ∧
    ∀ i (hi : i + 1 < (buildLedger requests).length),
      ((buildLedger requests).get ⟨i + 1, hi⟩).prevHash =
        some (((buildLedger requests).get ⟨i, Nat.lt_of_succ_lt hi⟩).hash) := by
  obtain ⟨-, hchain, hlen⟩ := buildLedger_invariant requests []
    (List.Pairwise.nil) trivial (by intro r _ d hd; simp at hd) hts
  refine ⟨by simpa using hlen, ?_, ?_⟩
  · intro h0
    exact chainedFrom_get_zero none _ hchain h0
  · exact chainedFrom_get_succ _ none hchain

/-- Three decision requests appended by a single writer at increasing
timestamps. -/
def c4Requests : List AppendRequest :=
  [ { node := "finance", data := Json.obj [("discount_pct", Json.num 10)],
      evaluationResult :=
        { approved := true, autonomyLevel := 2,
          reason := "Approved under AL2 constraints" },
      policyVersion := "finance-constitution@1.0.0", correlationId := "c1",
      ts := 1, latencyMs := 3 },
    { node := "finance", data := Json.obj [("discount_pct", Json.num 4)],
      evaluationResult :=
        { approved := true, autonomyLevel := 1,
          reason := "Approved under AL1 constraints" },
      policyVersion := "finance-constitution@1.0.0", correlationId := "c2",
      ts := 2, latencyMs := 4 },
    { node := "finance", data := Json.obj [("discount_pct", Json.num 20)],
      evaluationResult :=
        { approved := false, autonomyLevel := 0,
          reason := "No autonomy band matches constraints. Escalating to CFO",
          escalationTarget := some "CFO" },
      policyVersion := "finance-constitution@1.0.0", correlationId := "c3",
      ts := 3, latencyMs := 2 } ]

/-- Witness for C4 on three sequential appends. -/
theorem decision_chain_reproduces_insertion_order_witness :
    List.Pairwise (fun a b : AppendRequest => a.ts < b.ts) c4Requests ∧
    ((buildLedger c4Requests).length = c4Requests.length ∧
    (∀ h0 : 0 < (buildLedger c4Requests).length,
      ((buildLedger c4Requests).get ⟨0, h0⟩).prevHash = none) ∧
    ∀ i (hi : i + 1 < (buildLedger c4Requests).length),
      ((buildLedger c4Requests).get ⟨i + 1, hi⟩).prevHash =
        some (((buildLedger c4Requests).get ⟨i, Nat.lt_of_succ_lt hi⟩).hash)) :=
  ⟨by simp [c4Requests, List.pairwise_cons],
   decision_chain_reproduces_insertion_order c4Requests
     (by simp [c4Requests, List.pairwise_cons])⟩

/-! ### Hash determinism (claim C5)

Two JSON values are logically equal when they differ only in the insertion
order of object keys, recursively.  `JEquiv` factors each object step as a
pointwise-equal entry list followed by a permutation. -/

mutual

/-- Logical equality of JSON values: equal scalars, pointwise logically
equal arrays, and objects equal as key-value mappings regardless of entry
order. -/
inductive JEquiv : Json → Json → Prop where
  | null : JEquiv .null .null
  | bool (b : Bool) : JEquiv (.bool b) (.bool b)
  | num (q : ℚ) : JEquiv (.num q) (.num q)
  | str (s : String) : JEquiv (.str s) (.str s)
  | arr {xs ys : List Json} : JEquivList xs ys → JEquiv (.arr xs) (.arr ys)
  | obj {xs ys zs : List (String × Json)} :
      JEquivKvs xs ys → List.Perm ys zs → JEquiv (.obj xs) (.obj zs)

/-- Pointwise logical equality of JSON lists. -/
inductive JEquivList : List Json → List Json → Prop where
  | nil : JEquivList [] []
  | cons {a b : Json} {as bs : List Json} :
      JEquiv a b → JEquivList as bs → JEquivList (a :: as) (b :: bs)

/-- Pointwise logical equality of entry lists: same keys in the same order,
logically equal values. -/
inductive JEquivKvs : List (String × Json) → List (String × Json) → Prop where
  | nil : JEquivKvs [] []
  | cons (k : String) {v w : Json} {vs ws : List (String × Json)} :
      JEquiv v w → JEquivKvs vs ws → JEquivKvs ((k, v) :: vs) ((k, w) :: ws)

end

/-- No string occurs twice. -/
def allDiffKeys : List String → Bool
  | [] => true
  | k :: ks => !(ks.contains k) && allDiffKeys ks

mutual

/-- Every object in the value has pairwise distinct keys (JavaScript
objects cannot carry duplicate keys). -/
def nodupKeys : Json → Bool
  | .null => true
  | .bool _ => true
  | .num _ => true
  | .str _ => true
  | .arr xs => nodupKeysList xs
  | .obj kvs => allDiffKeys (kvs.map (fun p => p.1)) && nodupKeysEntries kvs

/-- `nodupKeys` over the elements of an array. -/
def nodupKeysList : List Json → Bool
  | [] => true
  | x :: xs => nodupKeys x && nodupKeysList xs

/-- `nodupKeys` over the values of an object's entries. -/
def nodupKeysEntries : List (String × Json) → Bool
  | [] => true
  | (_, v) :: rest => nodupKeys v && nodupKeysEntries rest

end

/-- `allDiffKeys` decides `Nodup`. -/
theorem allDiffKeys_nodup (ks : List String) (h : allDiffKeys ks = true) :
    ks.Nodup := by
  induction ks with
  | nil => exact List.nodup_nil
  | cons k rest ih =>
    simp only [allDiffKeys, Bool.and_eq_true, Bool.not_eq_true] at h
    refine List.nodup_cons.mpr ⟨?_, ih h.2⟩
    intro hmem
    have hc : rest.contains k = true := List.elem_eq_true_of_mem hmem
    rw [hc] at h
    simp at h

/-- `sortKeysEntries` is the map transforming each value by `sortKeys`. -/
theorem sortKeysEntries_eq_map (l : List (String × Json)) :
    sortKeysEntries l = l.map (fun p => (p.1, sortKeys p.2)) := by
  induction l with
  | nil => rfl
  | cons p rest ih =>
    obtain ⟨k, v⟩ := p
    simp [sortKeysEntries, ih]

/-- Two permuted entry lists with duplicate-free keys sort identically. -/
theorem sortEntries_eq_of_perm (l1 l2 : List (String × Json))
    (hperm : l1.Perm l2) (hnd : (l1.map Prod.fst).Nodup) :
    sortEntries l1 = sortEntries l2 := by
  have hp1 : (sortEntries l1).Perm l1 := List.perm_insertionSort _ _
  have hp2 : (sortEntries l2).Perm l2 := List.perm_insertionSort _ _
  have hperm12 : (sortEntries l1).Perm (sortEntries l2) :=
    hp1.trans (hperm.trans hp2.symm)
  have hs1 : List.Sorted (fun p q : String × Json => p.1 ≤ q.1) (sortEntries l1) :=
    @List.sorted_insertionSort (String × Json) (fun p q => p.1 ≤ q.1) _
      ⟨fun a b => le_total a.1 b.1⟩ ⟨fun _ _ _ h1 h2 => le_trans h1 h2⟩ l1
  have hs2 : List.Sorted (fun p q : String × Json => p.1 ≤ q.1) (sortEntries l2) :=
    @List.sorted_insertionSort (String × Json) (fun p q => p.1 ≤ q.1) _
      ⟨fun a b => le_total a.1 b.1⟩ ⟨fun _ _ _ h1 h2 => le_trans h1 h2⟩ l2
  have hnd1 : ((sortEntries l1).map Prod.fst).Nodup :=
    ((hp1.map Prod.fst).nodup_iff).mpr hnd
  have hnd2 : ((sortEntries l2).map Prod.fst).Nodup :=
    ((hperm12.map Prod.fst).nodup_iff).mp hnd1
  have hne1 : List.Pairwise (fun p q : String × Json => p.1 ≠ q.1) (sortEntries l1) :=
    List.pairwise_map.mp hnd1
  have hne2 : List.Pairwise (fun p q : String × Json => p.1 ≠ q.1) (sortEntries l2) :=
    List.pairwise_map.mp hnd2
  have hlt1 : List.Sorted (fun p q : String × Json => p.1 < q.1) (sortEntries l1) :=
    (hs1.and hne1).imp (fun h => lt_of_le_of_ne h.1 h.2)
  have hlt2 : List.Sorted (fun p q : String × Json => p.1 < q.1) (sortEntries l2) :=
    (hs2.and hne2).imp (fun h => lt_of_le_of_ne h.1 h.2)
  haveI : IsAntisymm (String × Json) (fun p q => p.1 < q.1) :=
    ⟨fun _ _ h1 h2 => absurd h2 (not_lt.mpr (le_of_lt h1))⟩
  exact List.eq_of_perm_of_sorted hperm12 hlt1 hlt2

mutual

/-- Logically equal values with duplicate-free keys have the same stable
(key-sorted) form. -/
theorem jequiv_sortKeys : ∀ {a b : Json}, JEquiv a b → nodupKeys a = true →
    sortKeys a = sortKeys b
  | _, _, .null, _ => rfl
  | _, _, .bool _, _ => rfl
  | _, _, .num _, _ => rfl
  | _, _, .str _, _ => rfl
  | _, _, @JEquiv.arr _ _ hl, hn =>
      congrArg Json.arr (jequivList_sortKeys hl (by simpa [nodupKeys] using hn))
  | _, _, @JEquiv.obj xs ys zs hkvs hperm, hn => by
      have hn1 : allDiffKeys (xs.map (fun p => p.1)) = true := by
        simp only [nodupKeys, Bool.and_eq_true] at hn
        exact hn.1
      have hn2 : nodupKeysEntries xs = true := by
        simp only [nodupKeys, Bool.and_eq_true] at hn
        exact hn.2
      have hrec := jequivKvs_sortKeys hkvs hn2
      have hnd : ((sortKeysEntries ys).map Prod.fst).Nodup := by
        rw [sortKeysEntries_eq_map]
        have hmm : ((ys.map (fun p => (p.1, sortKeys p.2))).map Prod.fst) =
            ys.map (fun p => p.1) := by
          simp [List.map_map, Function.comp]
        rw [hmm, ← hrec.2]
        exact allDiffKeys_nodup _ hn1
      have hpermMapped : (sortKeysEntries ys).Perm (sortKeysEntries zs) := by
        rw [sortKeysEntries_eq_map, sortKeysEntries_eq_map]
        exact hperm.map _
      have hsort : sortEntries (sortKeysEntries ys) = sortEntries (sortKeysEntries zs) :=
        sortEntries_eq_of_perm _ _ hpermMapped (by
          rw [sortKeysEntries_eq_map] at hnd
          rwa [sortKeysEntries_eq_map])
      show Json.obj (sortEntries (sortKeysEntries xs)) =
        Json.obj (sortEntries (sortKeysEntries zs))
      rw [hrec.1, hsort]

/-- Pointwise version of `jequiv_sortKeys` for array elements. -/
theorem jequivList_sortKeys : ∀ {xs ys : List Json}, JEquivList xs ys →
    nodupKeysList xs = true → sortKeysList xs = sortKeysList ys
  | _, _, .nil, _ => rfl
  | _, _, @JEquivList.cons _ _ _ _ hab hrest, hn => by
      have h1 := (Bool.and_eq_true_iff.mp (by simpa [nodupKeysList] using hn)).1
      have h2 := (Bool.and_eq_true_iff.mp (by simpa [nodupKeysList] using hn)).2
      simp only [sortKeysList]
      rw [jequiv_sortKeys hab h1, jequivList_sortKeys hrest h2]

/-- Pointwise version of `jequiv_sortKeys` for entry lists; the key
sequence is preserved. -/
theorem jequivKvs_sortKeys : ∀ {xs ys : List (String × Json)}, JEquivKvs xs ys →
    nodupKeysEntries xs = true →
    sortKeysEntries xs = sortKeysEntries ys ∧ xs.map Prod.fst = ys.map Prod.fst
  | _, _, .nil, _ => ⟨rfl, rfl⟩
  | _, _, @JEquivKvs.cons k _ _ _ _ hvw hrest, hn => by
      have h1 := (Bool.and_eq_true_iff.mp (by simpa [nodupKeysEntries] using hn)).1
      have h2 := (Bool.and_eq_true_iff.mp (by simpa [nodupKeysEntries] using hn)).2
      have ih := jequivKvs_sortKeys hrest h2
      constructor
      · simp only [sortKeysEntries]
        rw [jequiv_sortKeys hvw h1, ih.1]
      · simp only [List.map_cons]
        rw [ih.2]

end

/-- C5: `computeDecisionHash` is deterministic over logically equal
arguments — inputs and output objects equal as key-value mappings (with
the duplicate-free keys JavaScript objects guarantee) hash identically
whatever their key insertion order; and the digest is SHA-256, rendered as
lowercase hex, over the stably-serialized inputs, the stably-serialized
output, the previous hash (empty string when null), and the policy version,
joined with `"|"`. -/
theorem computeDecisionHash_deterministic :
    (∀ (inputs1 inputs2 output1 output2 : Json) (prevHash : Option String)
        (policyVersion : String),
      JEquiv inputs1 inputs2 → nodupKeys inputs1 = true →
      JEquiv output1 output2 → nodupKeys output1 = true →
      computeDecisionHash
          { inputs := inputs1, output := output1,
            prevHash := prevHash, policyVersion := policyVersion } =
        computeDecisionHash
          { inputs := inputs2, output := output2,
            prevHash := prevHash, policyVersion := policyVersion }) ∧
    (∀ params : ComputeDecisionHashOptions,
      computeDecisionHash params =
        sha256Hex (serialize (sortKeys params.inputs) ++ "|" ++
          serialize (sortKeys params.output) ++ "|" ++
          (match params.prevHash with | none => "" | some s => s) ++ "|" ++
          params.policyVersion)) := by
  constructor
  · intro inputs1 inputs2 output1 output2 prevHash policyVersion hi hni ho hno
    unfold computeDecisionHash
    rw [jequiv_sortKeys hi hni, jequiv_sortKeys ho hno]
  · intro params
    rfl

/-- The two logically equal witness inputs for C5: the same mapping with
every object's keys inserted in a different order. -/
def c5Inputs1 : Json :=
  .obj [("b", .num 1), ("a", .obj [("y", .num 2), ("x", .num 3)])]

/-- The reordered form of `c5Inputs1`. -/
def c5Inputs2 : Json :=
  .obj [("a", .obj [("x", .num 3), ("y", .num 2)]), ("b", .num 1)]

/-- The witness output object for C5. -/
def c5Output : Json := .obj [("approved", .bool true)]

/-- Witness for C5: nested key reorderings hash identically. -/
theorem computeDecisionHash_deterministic_witness :
    JEquiv c5Inputs1 c5Inputs2 ∧ nodupKeys c5Inputs1 = true ∧
    JEquiv c5Output c5Output ∧ nodupKeys c5Output = true ∧
    computeDecisionHash
        { inputs := c5Inputs1, output := c5Output,
          prevHash := none, policyVersion := "finance-constitution@1.0.0" } =
      computeDecisionHash
        { inputs := c5Inputs2, output := c5Output,
          prevHash := none, policyVersion := "finance-constitution@1.0.0" } :=
  have hinner : JEquiv (.obj [("y", .num 2), ("x", .num 3)])
      (.obj [("x", .num 3), ("y", .num 2)]) :=
    JEquiv.obj
      (JEquivKvs.cons "y" (JEquiv.num 2) (JEquivKvs.cons "x" (JEquiv.num 3) JEquivKvs.nil))
      (List.Perm.swap ("x", Json.num 3) ("y", Json.num 2) [])
  have hin : JEquiv c5Inputs1 c5Inputs2 :=
    JEquiv.obj
      (JEquivKvs.cons "b" (JEquiv.num 1)
        (JEquivKvs.cons "a" hinner JEquivKvs.nil))
      (List.Perm.swap ("a", Json.obj [("x", .num 3), ("y", .num 2)]) ("b", Json.num 1) [])
  have hout : JEquiv c5Output c5Output :=
    JEquiv.obj
      (JEquivKvs.cons "approved" (JEquiv.bool true) JEquivKvs.nil)
      (List.Perm.refl _)
  ⟨hin, by decide, hout, by decide,
    computeDecisionHash_deterministic.1 c5Inputs1 c5Inputs2 c5Output c5Output
      none "finance-constitution@1.0.0" hin (by decide) hout (by decide)⟩
